import Mathlib

/-!
Verification development for the EvacuationResearch multi-scale evacuation
engine.  The definitions below are a shallow embedding, in exact rational
arithmetic, of the Python sources:

* `backend/models/mesoscopic/boltzmann.py`   (`BoltzmannModel`)
* `backend/models/macroscopic/pde_model.py`  (`MacroscopicModel`)
* `backend/models/microscopic/social_force.py` (`SocialForceModel`)
* `backend/models/training/rl_model.py`      (`EvacuationEnvironment`)

Conventions of the embedding:

* Machine floats are modelled by `ℚ`.  The transcendental primitives of the
  sources (`np.exp`, `np.sqrt`, `np.cos`/`np.sin`, `x ** 0.8`) cannot be
  represented exactly in `ℚ`; each is passed in as a function parameter
  (`rexp`, `rsqrt`, `vel`, `rpow`), and each theorem assumes of the parameter
  only properties that the genuine real-valued function satisfies (for
  example: `rsqrt` maps a rational square `q * q` to `q`, `rexp` is monotone).
  Concrete closed statements instantiate the parameters with computable
  rational stand-ins (`sqrtQ`, `rexpQ`, `velQ`) that satisfy those same
  properties at every point the statement touches.
* Grids are total functions `ℤ → ℤ → ℚ`; a grid produced by the model is 0
  outside `[0, n) × [0, n)` and all reductions (`gridSum`) range over the
  grid cells only, so the out-of-range values never matter.
* The microscopic force code can produce IEEE NaN (0/0); its embedding
  computes in `Option ℚ`, `none` standing for NaN, and comparisons against
  `none` are `false` exactly as IEEE comparisons with NaN are.
* Python's `int(.)` truncates toward zero (`pyInt`); `round` rounds half to
  even, but since no argument of `round` in any statement below lies on a
  tie, the embedding uses `⌊q + 1/2⌋` (`roundQ`), which agrees with the
  source everywhere it is applied.
-/

namespace Evac

/-- Python `int(q)`: truncation toward zero. -/
def pyInt (q : ℚ) : ℤ := Int.tdiv q.num q.den

/-- The world-to-grid mapping every solver uses: `int(v * grid_size / 20)`. -/
def toGrid (gs : ℕ) (v : ℚ) : ℤ := pyInt (v * gs / 20)

/-- `min(max(v, lo), hi)` on integers (index clamping). -/
def clampI (v lo hi : ℤ) : ℤ := min (max v lo) hi

/-- `torch.clamp(x, lo, hi)`. -/
def clampQ (x lo hi : ℚ) : ℚ := min (max x lo) hi

/-- `int(round(q))`.  The source rounds half to even; no argument in this
development lies on a tie, where the two rules agree. -/
def roundQ (q : ℚ) : ℤ := ⌊q + 1/2⌋

/-- A scalar field on the solver grid. -/
def Grid : Type := ℤ → ℤ → ℚ

/-- Cell `(y, x)` lies on the `n × n` grid. -/
def inB (n : ℕ) (y x : ℤ) : Prop := 0 ≤ y ∧ y < (n : ℤ) ∧ 0 ≤ x ∧ x < (n : ℤ)

instance (n : ℕ) (y x : ℤ) : Decidable (inB n y x) := by
  unfold inB; infer_instance

/-- The index set of an `n × n` grid, as pairs `(y, x)`. -/
def gridCells (n : ℕ) : Finset (ℤ × ℤ) :=
  Finset.Icc (0 : ℤ) ((n : ℤ) - 1) ×ˢ Finset.Icc (0 : ℤ) ((n : ℤ) - 1)

/-- `torch.sum` of a grid tensor. -/
def gridSum (n : ℕ) (g : Grid) : ℚ := ∑ p in gridCells n, g p.1 p.2

/-- `torch.gradient` along dimension 0 (the `y` index): one-sided differences
at the two boundary rows, central differences inside. -/
def gradAlong0 (n : ℕ) (g : Grid) : Grid := fun y x =>
  if y = 0 then g 1 x - g 0 x
  else if y = (n : ℤ) - 1 then g ((n : ℤ) - 1) x - g ((n : ℤ) - 2) x
  else (g (y + 1) x - g (y - 1) x) / 2

/-- `torch.gradient` along dimension 1 (the `x` index). -/
def gradAlong1 (n : ℕ) (g : Grid) : Grid := fun y x =>
  if x = 0 then g y 1 - g y 0
  else if x = (n : ℤ) - 1 then g y ((n : ℤ) - 1) - g y ((n : ℤ) - 2)
  else (g y (x + 1) - g y (x - 1)) / 2

/-- A hazard disc as the scenario JSON carries it (`position`, `radius`,
`intensity`, `type`, with the `.get` defaults already applied). -/
structure Hazard where
  px : ℚ
  py : ℚ
  radius : ℚ
  intensity : ℚ
  htype : String
deriving DecidableEq

/-- An initial-position cluster `{"x": , "y": , "count": }`. -/
structure Cluster where
  cx : ℚ
  cy : ℚ
  cnt : ℚ
deriving DecidableEq

/-- A building layout: wall segments, exit points, seeded clusters. -/
structure Layout where
  walls : List ((ℚ × ℚ) × (ℚ × ℚ))
  exits : List (ℚ × ℚ)
  clusters : List Cluster
deriving DecidableEq

/-! ### Bresenham wall rasterization

`BoltzmannModel._apply_boundary_conditions`, the wall-mask loop of
`MacroscopicModel._solve_pde_finite_difference` and
`EvacuationEnvironment._draw_line` all run the same integer line algorithm;
it is embedded once.  The loop is written with explicit fuel
`|dx| + |dy| + 1`, which is enough for the stepping to reach the endpoint;
the fuel-out branch is unreachable. -/

def bresLoop (gs : ℕ) (ex ey dx dy sx sy : ℤ) :
    ℕ → ℤ → ℤ → ℤ → List (ℤ × ℤ) → List (ℤ × ℤ)
  | 0, _, _, _, acc => acc
  | fuel + 1, x, y, err, acc =>
    if x = ex ∧ y = ey then acc
    else
      let acc' := if inB gs y x then acc ++ [(x, y)] else acc
      let e2 := 2 * err
      let err1 := if e2 > -dy then err - dy else err
      let x1 := if e2 > -dy then x + sx else x
      let err2 := if e2 < dx then err1 + dx else err1
      let y1 := if e2 < dx then y + sy else y
      bresLoop gs ex ey dx dy sx sy fuel x1 y1 err2 acc'

/-- The grid cells one wall segment marks (the cells the Bresenham walk
crosses, plus the endpoint when in bounds). -/
def wallCellsOfWall (gs : ℕ) (w : (ℚ × ℚ) × (ℚ × ℚ)) : List (ℤ × ℤ) :=
  let sx0 := toGrid gs w.1.1
  let sy0 := toGrid gs w.1.2
  let ex0 := toGrid gs w.2.1
  let ey0 := toGrid gs w.2.2
  let dx := |ex0 - sx0|
  let dy := |ey0 - sy0|
  let sx : ℤ := if sx0 < ex0 then 1 else -1
  let sy : ℤ := if sy0 < ey0 then 1 else -1
  bresLoop gs ex0 ey0 dx dy sx sy (dx + dy + 1).toNat sx0 sy0 (dx - dy) []
    ++ (if inB gs ey0 ex0 then [(ex0, ey0)] else [])

/-- All wall cells of a layout, `(x, y)` pairs as the source stores them. -/
def wallCells (gs : ℕ) (walls : List ((ℚ × ℚ) × (ℚ × ℚ))) : List (ℤ × ℤ) :=
  walls.foldl (fun acc w => acc ++ wallCellsOfWall gs w) []

/-! ## Mesoscopic solver (`BoltzmannModel`)

The eight discrete velocities `c_k = (cos 2πk/8, sin 2πk/8)` are a parameter
`vel : Fin 8 → ℚ × ℚ`; `rexp` models `np.exp` and `rsqrt` models `np.sqrt`. -/

/-- `_initialize_distribution`: the initial spatial density. -/
def initialDensity (gs : ℕ) (ly : Layout) : Grid :=
  if ly.clusters = [] then
    fun y x =>
      let c : ℤ := (gs / 2 : ℕ)
      let r : ℤ := (gs / 8 : ℕ)
      if (c - r ≤ y ∧ y < c + r ∧ c - r ≤ x ∧ x < c + r) ∧ inB gs y x then 5 else 0
  else
    ly.clusters.foldl
      (fun g cl =>
        let xi := clampI (toGrid gs cl.cx) 0 ((gs : ℤ) - 1)
        let yi := clampI (toGrid gs cl.cy) 0 ((gs : ℤ) - 1)
        fun y x => if y = yi ∧ x = xi then g y x + cl.cnt else g y x)
      (fun _ _ => 0)

/-- `_initialize_distribution`: `f[k] = density / 8` for every direction. -/
def mesoF0 (gs : ℕ) (ly : Layout) : Fin 8 → Grid :=
  fun _ y x => if inB gs y x then initialDensity gs ly y x / 8 else 0

/-- `_compute_macroscopic_fields`: `ρ = Σ_k f_k`. -/
def mesoRho (f : Fin 8 → Grid) : Grid := fun y x => ∑ k : Fin 8, f k y x

/-- The density-dependent BGK relaxation time (`τ = 2` above the density
threshold `4.0`, else `1`). -/
def relaxTime (rho : ℚ) : ℚ := if rho > 4 then 2 else 1

/-- `_collision_step`: the BGK collision term `-(f - f_eq)/τ`,
`f_eq = ρ / 8`. -/
def collisionTerm (f : Fin 8 → Grid) : Fin 8 → Grid :=
  fun k y x => -(f k y x - mesoRho f y x / 8) / relaxTime (mesoRho f y x)

/-- The collision update of `simulate`: `f ← f + dt * collision_term`,
`dt = 0.1`. -/
def mesoCollide (f : Fin 8 → Grid) : Fin 8 → Grid :=
  fun k y x => f k y x + (1/10) * collisionTerm f k y x

/-- The aggregated hazard field of `_add_hazard_influence`
(`+= intensity * (1 - sqrt(dist_sq)/grid_radius)` inside the disc). -/
def hazardFieldMeso (rsqrt : ℚ → ℚ) (gs : ℕ) (hs : List Hazard) : Grid :=
  fun y x =>
    hs.foldl
      (fun acc h =>
        let cx := toGrid gs h.px
        let cy := toGrid gs h.py
        let gr := toGrid gs h.radius
        let d2 : ℤ := (x - cx) ^ 2 + (y - cy) ^ 2
        acc + (if d2 < gr ^ 2 then h.intensity * (1 - rsqrt (d2 : ℚ) / (gr : ℚ)) else 0))
      0

/-- `_add_hazard_influence`: where the hazard field exceeds `0.01`, each
direction `k` gains `clamp((-c_k · ∇H) * H * dt, 0, ρ)`.  (The source also
skips the whole stage when no cell is above the mask threshold or the hazard
list is empty; per cell this coincides with the mask test.) -/
def addHazardInfluence (vel : Fin 8 → ℚ × ℚ) (rsqrt : ℚ → ℚ) (gs : ℕ)
    (hs : List Hazard) (f : Fin 8 → Grid) : Fin 8 → Grid :=
  if hs = [] then f
  else
    fun k y x =>
      let H := hazardFieldMeso rsqrt gs hs
      if inB gs y x ∧ H y x > 1/100 then
        let gy := gradAlong0 gs H y x
        let gx := gradAlong1 gs H y x
        let dot := -(vel k).1 * gx - (vel k).2 * gy
        f k y x + clampQ (dot * H y x * (1/10)) 0 (mesoRho f y x)
      else f k y x

/-- The exit potential of `_calculate_exit_attraction`:
`A(x) = max_e exp(-d_e / (grid_size/10))`, folded from `0` as the source's
`max` updates do. -/
def exitPotential (rexp rsqrt : ℚ → ℚ) (gs : ℕ) (exits : List (ℚ × ℚ)) : Grid :=
  fun y x =>
    exits.foldl
      (fun acc e =>
        let exi := toGrid gs e.1
        let eyi := toGrid gs e.2
        let dist := rsqrt (((x - exi) ^ 2 + (y - eyi) ^ 2 : ℤ) : ℚ)
        max acc (rexp (-(dist / ((gs : ℚ) / 10)))))
      0

/-- `_calculate_exit_attraction`: each direction `k` gains
`(c_k · ∇A) * 0.1` where that dot product is positive. -/
def calcExitAttraction (vel : Fin 8 → ℚ × ℚ) (rexp rsqrt : ℚ → ℚ) (gs : ℕ)
    (exits : List (ℚ × ℚ)) (f : Fin 8 → Grid) : Fin 8 → Grid :=
  if exits = [] then f
  else
    fun k y x =>
      let A := exitPotential rexp rsqrt gs exits
      if inB gs y x then
        let gy := gradAlong0 gs A y x
        let gx := gradAlong1 gs A y x
        let dot := (vel k).1 * gx + (vel k).2 * gy
        f k y x + (if dot > 0 then dot * (1/10) else 0)
      else 0

/-- `_streaming_step`: shift channel `k` by
`(round(c_k.x * dt), round(c_k.y * dt))`; quantities leaving the grid are
lost. -/
def streamingStep (vel : Fin 8 → ℚ × ℚ) (gs : ℕ) (f : Fin 8 → Grid) : Fin 8 → Grid :=
  fun k y x =>
    let sx := roundQ ((vel k).1 * (1/10))
    let sy := roundQ ((vel k).2 * (1/10))
    if inB gs y x ∧ inB gs (y - sy) (x - sx) then f k (y - sy) (x - sx) else 0

/-- `_apply_boundary_conditions`: `f[:, y, x] = 0` at every Bresenham wall
cell. -/
def applyBoundary (gs : ℕ) (ly : Layout) (f : Fin 8 → Grid) : Fin 8 → Grid :=
  fun k y x => if (x, y) ∈ wallCells gs ly.walls then 0 else f k y x

/-- One time step of `BoltzmannModel.simulate`, in the source's order:
collision, hazard influence, exit attraction, streaming, boundary. -/
def mesoStep (vel : Fin 8 → ℚ × ℚ) (rexp rsqrt : ℚ → ℚ) (gs : ℕ) (ly : Layout)
    (hs : List Hazard) (f : Fin 8 → Grid) : Fin 8 → Grid :=
  applyBoundary gs ly
    (streamingStep vel gs
      (calcExitAttraction vel rexp rsqrt gs ly.exits
        (addHazardInfluence vel rsqrt gs hs
          (mesoCollide f))))

/-- The distribution at the end of time step `t` of `simulate` (`t = 0` is
the state after the pre-loop boundary pass). -/
def mesoRun (vel : Fin 8 → ℚ × ℚ) (rexp rsqrt : ℚ → ℚ) (gs : ℕ) (ly : Layout)
    (hs : List Hazard) : ℕ → Fin 8 → Grid
  | 0 => applyBoundary gs ly (mesoF0 gs ly)
  | t + 1 => mesoStep vel rexp rsqrt gs ly hs (mesoRun vel rexp rsqrt gs ly hs t)

/-- Total mass `Σ_x Σ_k f_k(x)` of a distribution state. -/
def mesoMass (gs : ℕ) (f : Fin 8 → Grid) : ℚ := ∑ k : Fin 8, gridSum gs (f k)

/-- Every distribution entry is non-negative. -/
def NonnegF (f : Fin 8 → Grid) : Prop := ∀ (k : Fin 8) (y x : ℤ), 0 ≤ f k y x

/-- Every channel vanishes on every wall cell. -/
def WallsZeroF (gs : ℕ) (ly : Layout) (f : Fin 8 → Grid) : Prop :=
  ∀ k : Fin 8, ∀ p ∈ wallCells gs ly.walls, f k p.2 p.1 = 0

/-! ### Computable stand-ins for the transcendental parameters -/

/-- A computable stand-in for `np.sqrt`: exact on rational squares
(`sqrtQ (q*q) = q` for `q ≥ 0`), an underestimate elsewhere, and `≥ 1` on
inputs `≥ 1`. -/
def sqrtQ (q : ℚ) : ℚ := (Nat.sqrt (q.num.toNat * q.den) : ℚ) / (q.den : ℚ)

/-- A computable stand-in for `np.exp`: strictly monotone, positive, and `1`
at `0`, like the exponential. -/
def rexpQ (q : ℚ) : ℚ := if 0 ≤ q then 1 + q else 1 / (1 - q)

/-- A computable stand-in for the eight unit directions
`(cos 2πk/8, sin 2πk/8)`: exact on the four axis directions, `0.7 ≈ √2/2`
on the diagonals; every component has absolute value at most 1. -/
def velQ : Fin 8 → ℚ × ℚ
  | 0 => (1, 0)
  | 1 => (7/10, 7/10)
  | 2 => (0, 1)
  | 3 => (-7/10, 7/10)
  | 4 => (-1, 0)
  | 5 => (-7/10, -7/10)
  | 6 => (0, -1)
  | 7 => (7/10, -7/10)

/-- The all-zero distribution state. -/
def zeroF : Fin 8 → Grid := fun _ _ _ => 0

/-- The empty layout with a single exit at world position `(1, 2)`, which
maps to grid cell `(0, 0)` at resolution 2. -/
def originExitLayout : Layout := ⟨[], [(1, 2)], []⟩

/-! ## Macroscopic solver (`MacroscopicModel._solve_pde_finite_difference`)

`dx = 1.0 / grid_resolution`, `dt = 0.1`, `D = 0.5`, `γ = 1.5`,
`λ_f = 0.2`. -/

/-- The spatial step `dx = 1.0 / grid_resolution`. -/
def dxQ (gs : ℕ) : ℚ := 1 / (gs : ℚ)

/-- The initial fire field: for each hazard of type `"fire"`,
`intensity * (1 - sqrt(dist_sq)/grid_radius)` inside the disc (assignment,
so a later hazard overwrites an earlier one on overlap). -/
def fireInit (rsqrt : ℚ → ℚ) (gs : ℕ) (hs : List Hazard) : Grid :=
  fun y x =>
    if inB gs y x then
      hs.foldl
        (fun acc h =>
          let cx := toGrid gs h.px
          let cy := toGrid gs h.py
          let gr := toGrid gs h.radius
          let d2 : ℤ := (x - cx) ^ 2 + (y - cy) ^ 2
          if h.htype = "fire" ∧ d2 < gr ^ 2 then
            h.intensity * (1 - rsqrt (d2 : ℚ) / (gr : ℚ))
          else acc)
        0
    else 0

/-- The `conv2d` of the fire update with the fixed 3×3 kernel
`[[0.05, 0.2, 0.05], [0.2, 0, 0.2], [0.05, 0.2, 0.05]]` and zero padding. -/
def convFire (gs : ℕ) (F : Grid) : Grid := fun y x =>
  let v : ℤ → ℤ → ℚ := fun yy xx => if inB gs yy xx then F yy xx else 0
  (1/20) * v (y - 1) (x - 1) + (1/5) * v (y - 1) x + (1/20) * v (y - 1) (x + 1)
    + (1/5) * v y (x - 1) + (1/5) * v y (x + 1)
    + (1/20) * v (y + 1) (x - 1) + (1/5) * v (y + 1) x + (1/20) * v (y + 1) (x + 1)

/-- The per-step fire update of the main loop: when `torch.sum(fire_field) > 0`,
`F ← clamp(F + 0.1 * (K * F), 0, 1)` followed by `F[wall] = 0`; otherwise the
field is left untouched.  It runs at EVERY step `t` of the loop — there is no
`t < time_steps/2` test anywhere in `_solve_pde_finite_difference`. -/
def fireStep (gs : ℕ) (wl : List (ℤ × ℤ)) (F : Grid) : Grid :=
  if 0 < gridSum gs F then
    fun y x =>
      if inB gs y x then
        if (x, y) ∈ wl then 0
        else clampQ (F y x + (1/10) * convFire gs F y x) 0 1
      else 0
  else F

/-- The fire update as §4.4 of the spec words it: unconditionally
`F ← clamp(F + 0.1 · (K * F), 0, 1)` with `F(wall) = 0`. -/
def specFireUpdate (gs : ℕ) (wl : List (ℤ × ℤ)) (F : Grid) : Grid :=
  fun y x =>
    if inB gs y x then
      if (x, y) ∈ wl then 0
      else clampQ (F y x + (1/10) * convFire gs F y x) 0 1
    else 0

/-- The fire field recorded at step `t` of the run (`fire_history[t]`, the
state before the step-`t` update). -/
def fireRun (gs : ℕ) (wl : List (ℤ × ℤ)) (F0 : Grid) : ℕ → Grid
  | 0 => F0
  | t + 1 => fireStep gs wl (fireRun gs wl F0 t)

/-- Pointwise product `v * ρ` (the flux tensors `flux_x`, `flux_y`). -/
def fluxG (v rho : Grid) : Grid := fun y x => v y x * rho y x

/-- `div_x[1:-1,1:-1] = (flux_x[1:-1,2:] - flux_x[1:-1,:-2]) / (2*dx)`;
zero on the boundary frame. -/
def divX (gs : ℕ) (f : Grid) : Grid := fun y x =>
  if 1 ≤ y ∧ y ≤ (gs : ℤ) - 2 ∧ 1 ≤ x ∧ x ≤ (gs : ℤ) - 2 then
    (f y (x + 1) - f y (x - 1)) / (2 * dxQ gs)
  else 0

/-- `div_y[1:-1,1:-1] = (flux_y[2:,1:-1] - flux_y[:-2,1:-1]) / (2*dx)`. -/
def divY (gs : ℕ) (f : Grid) : Grid := fun y x =>
  if 1 ≤ y ∧ y ≤ (gs : ℤ) - 2 ∧ 1 ≤ x ∧ x ≤ (gs : ℤ) - 2 then
    (f (y + 1) x - f (y - 1) x) / (2 * dxQ gs)
  else 0

/-- The 5-point Laplacian on the interior, zero on the boundary frame. -/
def lap5 (gs : ℕ) (rho : Grid) : Grid := fun y x =>
  if 1 ≤ y ∧ y ≤ (gs : ℤ) - 2 ∧ 1 ≤ x ∧ x ≤ (gs : ℤ) - 2 then
    (rho y (x + 1) + rho y (x - 1) + rho (y + 1) x + rho (y - 1) x
      - 4 * rho y x) / (dxQ gs * dxQ gs)
  else 0

/-- `evacuation = evacuation_coefficient * exit_field * density`, `γ = 1.5`. -/
def evacTerm (E rho : Grid) : Grid := fun y x => (3/2) * E y x * rho y x

/-- `hazard_effect = fire_coupling * fire_field * density`, `λ_f = 0.2`. -/
def hazEffect (F rho : Grid) : Grid := fun y x => (1/5) * F y x * rho y x

/-- The exit field: cells within `exit_radius = max(1, int(0.5*gs/20))` of a
mapped exit get `1.0`. -/
def exitFieldMacro (rsqrt : ℚ → ℚ) (gs : ℕ) (exits : List (ℚ × ℚ)) : Grid :=
  fun y x =>
    if inB gs y x then
      exits.foldl
        (fun acc e =>
          let exi := toGrid gs e.1
          let eyi := toGrid gs e.2
          let er : ℤ := max 1 (pyInt ((1/2) * gs / 20))
          if rsqrt (((x - exi) ^ 2 + (y - eyi) ^ 2 : ℤ) : ℚ) < (er : ℚ) then 1 else acc)
        0
    else 0

/-- One density update of the macroscopic main loop (source order:
fluxes → divergence → Laplacian → evacuation → hazard effect → update →
`clamp(min=0)` → `density_new[wall] = 0`), paired with the recorded
`evacuated_count[t] = torch.sum(dt * evacuation)` computed from the
pre-update density. -/
def macroDensityStep (gs : ℕ) (wl : List (ℤ × ℤ)) (vx vy F E rho : Grid) :
    Grid × ℚ :=
  let fluxx := fluxG vx rho
  let fluxy := fluxG vy rho
  (fun y x =>
      if inB gs y x then
        if (x, y) ∈ wl then 0
        else
          max (rho y x - (1/10) * (divX gs fluxx y x + divY gs fluxy y x)
                + (1/10) * ((1/2) * lap5 gs rho y x)
                - (1/10) * evacTerm E rho y x
                - (1/10) * hazEffect F rho y x) 0
      else 0,
   gridSum gs (fun y x => (1/10) * evacTerm E rho y x))

/-- The density update exactly as §4.4 of the spec words it:
`ρ ← max(0, ρ − dt·div(vρ) − dt·γ·E·ρ − dt·λ_f·F·ρ + dt·D·∇²ρ)`, then
`ρ(wall) = 0`, with evacuated count `Σ dt·γ·E·ρ` from the pre-update
density. -/
def specMacroUpdate (gs : ℕ) (wl : List (ℤ × ℤ)) (vx vy F E rho : Grid) :
    Grid × ℚ :=
  (fun y x =>
      if inB gs y x then
        if (x, y) ∈ wl then 0
        else
          max 0 (rho y x - (1/10) * divX gs (fluxG vx rho) y x
              - (1/10) * divY gs (fluxG vy rho) y x
              - (1/10) * ((3/2) * E y x * rho y x)
              - (1/10) * ((1/5) * F y x * rho y x)
              + (1/10) * ((1/2) * lap5 gs rho y x))
      else 0,
   ∑ p in gridCells gs, (1/10) * ((3/2) * E p.1 p.2 * rho p.1 p.2))

/-! ## Mock Oracle (`_generate_mock_results` of the micro and macro models) -/

/-- The micro mock's cumulative curve:
`safe_agents[t] = int(num_agents * (t/time_steps)**2 * 0.9)`. -/
def mockMicroSafe (n T t : ℕ) : ℤ :=
  ⌊(n : ℚ) * ((t : ℚ) / (T : ℚ)) ^ 2 * (9/10)⌋

/-- The macro mock's evacuated series after the resource caps
(`time_steps = min(time_steps, 120)`):
`evacuated_count[t] = 500 * (t/time_steps) ** 0.8` for `t ≥ 1`, `0` at
`t = 0`.  `rpow` models `x ↦ x ** 0.8`. -/
def mockMacroEvac (rpow : ℚ → ℚ) (T t : ℕ) : ℚ :=
  let tc : ℕ := min T 120
  if t = 0 then 0 else 500 * rpow ((t : ℚ) / (tc : ℚ))

/-- The macro mock's initial density (after the cap
`grid_resolution = min(grid_resolution, 150)`): `exp(-dist/(g/8))` inside
the central disc of radius `g // 4`. -/
def mockMacroDensity0 (rexp rsqrt : ℚ → ℚ) (g : ℕ) : Grid :=
  let gc : ℕ := min g 150
  let c : ℤ := (gc / 2 : ℕ)
  fun y x =>
    let dist := rsqrt (((y - c) ^ 2 + (x - c) ^ 2 : ℤ) : ℚ)
    if inB gc y x ∧ dist < ((gc / 4 : ℕ) : ℚ) then rexp (-(dist / ((gc : ℚ) / 8)))
    else 0

/-- The macro mock's total initial mass. -/
def mockMacroInitMass (rexp rsqrt : ℚ → ℚ) (g : ℕ) : ℚ :=
  gridSum (min g 150) (mockMacroDensity0 rexp rsqrt g)

/-- The identity on `ℚ`, used as the computable stand-in for `x ↦ x ** 0.8`
(on `[0, 1]` the genuine power function dominates the identity, and both are
monotone and non-negative). -/
def idQ : ℚ → ℚ := fun q => q

/-! ## Microscopic solver (`SocialForceModel`)

The force code runs on IEEE floats and can produce NaN (`0/0`); values are
embedded as `MF = Option ℚ` with `none` for NaN.  A division whose
denominator is NaN or zero gives `none`; every arithmetic operation
propagates `none`; an order comparison involving `none` is `false`, as IEEE
comparisons with NaN are.  (An IEEE division `x/0` with `x ≠ 0` gives an
infinity rather than NaN; no division in any statement below has a zero
denominator with a non-zero numerator, so the collapse of both cases into
`none` is never observed.)  `nrm` models the Euclidean norm
`torch.norm` of a 2-vector. -/

/-- A float value: `some q` for a finite value, `none` for NaN. -/
def MF : Type := Option ℚ

/-- A finite float. -/
def mQ (q : ℚ) : MF := some q

/-- The NaN float. -/
def mNaN : MF := none

def mAdd : MF → MF → MF
  | some a, some b => some (a + b)
  | _, _ => none

def mSub : MF → MF → MF
  | some a, some b => some (a - b)
  | _, _ => none

def mMul : MF → MF → MF
  | some a, some b => some (a * b)
  | _, _ => none

def mDiv : MF → MF → MF
  | some a, some b => if b = 0 then none else some (a / b)
  | _, _ => none

def mNeg : MF → MF
  | some a => some (-a)
  | none => none

instance : Add MF := ⟨mAdd⟩

instance : Sub MF := ⟨mSub⟩

instance : Mul MF := ⟨mMul⟩

instance : Div MF := ⟨mDiv⟩

instance : Neg MF := ⟨mNeg⟩

/-- A float comparison `a < b`: `false` when either side is NaN. -/
def mLt : MF → MF → Bool
  | some a, some b => decide (a < b)
  | _, _ => false

/-- `torch.clamp` on floats: NaN propagates. -/
def mClamp : MF → ℚ → ℚ → MF
  | some v, lo, hi => some (clampQ v lo hi)
  | none, _, _ => none

/-- `torch.norm` of a 2-vector, through the norm parameter `nrm`. -/
def mNorm (nrm : ℚ → ℚ → ℚ) : MF → MF → MF
  | some a, some b => some (nrm a b)
  | _, _ => none

/-- `torch.exp`, through the parameter `rexp`. -/
def mExp (rexp : ℚ → ℚ) : MF → MF
  | some a => some (rexp a)
  | none => none

/-- A float 2-vector. -/
def Vec2 : Type := MF × MF

/-- `_calculate_desired_force` for one agent: zero normalized direction when
the goal distance is not above `0.01`, else `(g - x)/‖g - x‖`; returns
`(1/τ)(v_des · n̂ - v)` with `τ = 0.5`, `v_des = 1.4`. -/
def desiredForce (nrm : ℚ → ℚ → ℚ) (pos vel goal : Vec2) : Vec2 :=
  let dirx := goal.1 - pos.1
  let diry := goal.2 - pos.2
  let dist := mNorm nrm dirx diry
  let nx := if mLt (mQ (1/100)) dist then dirx / dist else mQ 0
  let ny := if mLt (mQ (1/100)) dist then diry / dist else mQ 0
  (mQ 2 * (mQ (7/5) * nx - vel.1), mQ 2 * (mQ (7/5) * ny - vel.2))

/-- `_calculate_agent_repulsion`: for agent `p`, sum over the other agents
within `(0, 2.0)` of `-(rel/d) * 2 * exp(-d/0.8)`, times the panic factor. -/
def agentRepulsion (nrm : ℚ → ℚ → ℚ) (rexp : ℚ → ℚ) (pf : ℚ)
    (positions : List Vec2) : List Vec2 :=
  positions.map fun p =>
    let s := positions.foldl
      (fun acc q =>
        let rx := q.1 - p.1
        let ry := q.2 - p.2
        let d := mNorm nrm rx ry
        if mLt (mQ 0) d ∧ mLt d (mQ 2) then
          let mag := mExp rexp (-(d / mQ (4/5))) * mQ 2
          (acc.1 + rx / d * mag, acc.2 + ry / d * mag)
        else acc)
      (mQ 0, mQ 0)
    (-s.1 * mQ pf, -s.2 * mQ pf)

/-- `_calculate_wall_repulsion`: project the agent on each wall segment
(clamped to the endpoints); if the distance is below `1.0`, add
`(direction/(d + 1e-6)) * 3 * exp(-d/0.2)`.  A zero-length wall makes
`wall_unit = 0/0 = NaN`; the NaN propagates to `distance`, the comparison
`distance < 1.0` is then false and the wall contributes nothing. -/
def wallRepulsion (nrm : ℚ → ℚ → ℚ) (rexp : ℚ → ℚ)
    (positions : List Vec2) (walls : List ((ℚ × ℚ) × (ℚ × ℚ))) : List Vec2 :=
  positions.map fun p =>
    walls.foldl
      (fun acc w =>
        let wvx := mQ (w.2.1 - w.1.1)
        let wvy := mQ (w.2.2 - w.1.2)
        let wlen := mNorm nrm wvx wvy
        let ux := wvx / wlen
        let uy := wvy / wlen
        let asx := p.1 - mQ w.1.1
        let asy := p.2 - mQ w.1.2
        let projC :=
          match (asx * ux + asy * uy), wlen with
          | some pr, some l => mClamp (some pr) 0 l
          | _, _ => none
        let cpx := mQ w.1.1 + projC * ux
        let cpy := mQ w.1.2 + projC * uy
        let dx := p.1 - cpx
        let dy := p.2 - cpy
        let dist := mNorm nrm dx dy
        if mLt dist (mQ 1) then
          let mag := mExp rexp (-(dist / mQ (1/5))) * mQ 3
          (acc.1 + dx / (dist + mQ (1/1000000)) * mag,
           acc.2 + dy / (dist + mQ (1/1000000)) * mag)
        else acc)
      (mQ 0, mQ 0)

/-- `_calculate_hazard_avoidance`: agents within `2 * radius` of a hazard get
`(rel/d) * intensity * exp(-d/radius) * 5`, times the panic factor.  At
`d = 0` the direction is `0/0 = NaN` and the force is NaN. -/
def hazardAvoidance (nrm : ℚ → ℚ → ℚ) (rexp : ℚ → ℚ) (pf : ℚ)
    (positions : List Vec2) (hazards : List Hazard) : List Vec2 :=
  positions.map fun p =>
    let s := hazards.foldl
      (fun acc h =>
        let rx := p.1 - mQ h.px
        let ry := p.2 - mQ h.py
        let d := mNorm nrm rx ry
        if mLt d (mQ (h.radius * 2)) then
          let mag := mQ h.intensity * mExp rexp (-(d / mQ h.radius)) * mQ 5
          (acc.1 + rx / d * mag, acc.2 + ry / d * mag)
        else acc)
      (mQ 0, mQ 0)
    (s.1 * mQ pf, s.2 * mQ pf)

/-- Both components are finite (not NaN). -/
def FiniteV (v : Vec2) : Prop := (∃ a, v.1 = some a) ∧ (∃ b, v.2 = some b)

/-- One integration step of `SocialForceModel.simulate` (`dt = 0.1`): sum the
four forces, Euler-update the velocities, rescale the ones above
`v_max = 1.4 (1 + 0.5·panic)`, move, then sweep the exits counting agents
within `1.0` and moving them to the sentinel `(-1000, -1000)` with zero
velocity.  Returns the new state, the recorded history entries (positions and
velocities before the exit sweep) and this step's `safe_agents[t]` count. -/
def microStep (nrm : ℚ → ℚ → ℚ) (rexp : ℚ → ℚ) (walls : List ((ℚ × ℚ) × (ℚ × ℚ)))
    (exits : List (ℚ × ℚ)) (hazards : List Hazard) (pf : ℚ) (goals : List Vec2)
    (st : List Vec2 × List Vec2) :
    (List Vec2 × List Vec2) × (List Vec2 × List Vec2) × ℕ :=
  let positions := st.1
  let velocities := st.2
  let fd := List.zipWith (fun pv g => desiredForce nrm pv.1 pv.2 g)
    (positions.zip velocities) goals
  let fa := agentRepulsion nrm rexp pf positions
  let fw := wallRepulsion nrm rexp positions walls
  let fh := hazardAvoidance nrm rexp pf positions hazards
  let total := List.zipWith (fun a b => (a.1 + b.1, a.2 + b.2))
    (List.zipWith (fun a b => (a.1 + b.1, a.2 + b.2))
      (List.zipWith (fun a b => (a.1 + b.1, a.2 + b.2)) fd fa) fw) fh
  let vel1 := List.zipWith
    (fun (v : Vec2) (f : Vec2) => (v.1 + f.1 * mQ (1/10), v.2 + f.2 * mQ (1/10)))
    velocities total
  let ms : ℚ := (7/5) * (1 + (1/2) * pf)
  let vel2 := vel1.map fun v =>
    let sp := mNorm nrm v.1 v.2
    if mLt (mQ ms) sp then (v.1 * mQ ms / sp, v.2 * mQ ms / sp) else v
  let pos1 := List.zipWith
    (fun (p : Vec2) (v : Vec2) => (p.1 + v.1 * mQ (1/10), p.2 + v.2 * mQ (1/10)))
    positions vel2
  let sweep := exits.foldl
    (fun (acc : List Vec2 × List Vec2 × ℕ) e =>
      let reach := acc.1.map fun p =>
        mLt (mNorm nrm (p.1 - mQ e.1) (p.2 - mQ e.2)) (mQ 1)
      let pos' := List.zipWith
        (fun (p : Vec2) r => if r then ((mQ (-1000), mQ (-1000)) : Vec2) else p)
        acc.1 reach
      let vel' := List.zipWith
        (fun (v : Vec2) r => if r then ((mQ 0, mQ 0) : Vec2) else v)
        acc.2.1 reach
      (pos', vel', acc.2.2 + reach.count true))
    (pos1, vel2, 0)
  ((sweep.1, sweep.2.1), (pos1, vel2), sweep.2.2)

/-- The goal of one agent: the closest exit at initialization
(`torch.argmin`, first index on ties). -/
def closestGoal (nrm : ℚ → ℚ → ℚ) (exits : List (ℚ × ℚ)) (p : ℚ × ℚ) : Vec2 :=
  match exits with
  | [] => (mQ 0, mQ 0)
  | e :: rest =>
    let best := rest.foldl
      (fun (acc : (ℚ × ℚ) × MF) e' =>
        let d := mNorm nrm (mQ (e'.1 - p.1)) (mQ (e'.2 - p.2))
        if mLt d acc.2 then (e', d) else acc)
      (e, mNorm nrm (mQ (e.1 - p.1)) (mQ (e.2 - p.2)))
    (mQ best.1.1, mQ best.1.2)

/-- The main loop of `SocialForceModel.simulate`, collecting the per-step
position history, velocity history and `safe_agents` counts in step order. -/
def microLoop (nrm : ℚ → ℚ → ℚ) (rexp : ℚ → ℚ)
    (walls : List ((ℚ × ℚ) × (ℚ × ℚ))) (exits : List (ℚ × ℚ))
    (hazards : List Hazard) (pf : ℚ) (goals : List Vec2) :
    ℕ → (List Vec2 × List Vec2) → List (List Vec2) × List (List Vec2) × List ℕ
  | 0, _ => ([], [], [])
  | t + 1, st =>
    let r := microStep nrm rexp walls exits hazards pf goals st
    let rest := microLoop nrm rexp walls exits hazards pf goals t r.1
    (r.2.1.1 :: rest.1, r.2.1.2 :: rest.2.1, r.2.2 :: rest.2.2)

/-- `SocialForceModel.simulate` with the random initial draw passed in as
`init` (the source draws `torch.rand(n, 2) * 20`): assign each agent the
closest exit as its goal, start from zero velocities, run `T` steps and
return the histories and the `safe_agents` series as the source records
them. -/
def microSim (nrm : ℚ → ℚ → ℚ) (rexp : ℚ → ℚ) (ly : Layout)
    (hazards : List Hazard) (pf : ℚ) (init : List (ℚ × ℚ)) (T : ℕ) :
    List (List Vec2) × List (List Vec2) × List ℕ :=
  let goals : List Vec2 := init.map (closestGoal nrm ly.exits)
  let st0 : List Vec2 × List Vec2 :=
    (init.map fun p => (mQ p.1, mQ p.2), init.map fun _ => (mQ 0, mQ 0))
  microLoop nrm rexp ly.walls ly.exits hazards pf goals T st0

/-! ## RL environment (`EvacuationEnvironment`) -/

/-- The environment state: the static channels (`grid[:,:,1]` walls,
`grid[:,:,2]` hazards), the agent channel (`grid[:,:,0]`), positions
(`(x, y)` pairs), `agent_status` (`true` = evacuated), the
`_previous_evacuated` tracker and the step counter. -/
structure RLState where
  gs : ℕ
  numAgents : ℕ
  exits : List (ℚ × ℚ)
  hazards : List Hazard
  wallCh : Grid
  hazCh : Grid
  agentCh : Grid
  positions : List (ℤ × ℤ)
  status : List Bool
  prevEvac : ℕ
  timeStep : ℕ

/-- `np.sum(self.agent_status)`. -/
def statusSum (st : RLState) : ℕ := st.status.count true

/-- The action table of `step` (`directions[action]`, `(dx, dy)` pairs). -/
def rlDirs : Fin 8 → ℤ × ℤ
  | 0 => (0, -1)
  | 1 => (1, -1)
  | 2 => (1, 0)
  | 3 => (1, 1)
  | 4 => (0, 1)
  | 5 => (-1, 1)
  | 6 => (-1, 0)
  | 7 => (-1, -1)

/-- The closest-exit scan of `step` (index, mapped cell and distance of the
first minimizer; `none` when there is no exit). -/
def closestExitScan (rsqrt : ℚ → ℚ) (gs : ℕ) (exits : List (ℚ × ℚ))
    (x y : ℤ) : Option (ℕ × (ℤ × ℤ) × ℚ) :=
  exits.enum.foldl
    (fun acc je =>
      let exi := toGrid gs je.2.1
      let eyi := toGrid gs je.2.2
      let d := rsqrt (((x - exi) ^ 2 + (y - eyi) ^ 2 : ℤ) : ℚ)
      match acc with
      | none => some (je.1, (exi, eyi), d)
      | some best => if d < best.2.2 then some (je.1, (exi, eyi), d) else some best)
    none

/-- The movement of one active agent in `step`: recommended direction plus
exit attraction plus hazard repulsion, normalized when non-zero, rounded,
clamped to the grid; the move happens only onto a non-wall cell, and an agent
arriving within Chebyshev distance 1 of a mapped exit is marked evacuated. -/
def rlMoveAgent (rsqrt : ℚ → ℚ) (st : RLState) (a : Fin 8) (p : ℤ × ℤ) :
    (ℤ × ℤ) × Bool :=
  let d := rlDirs a
  let fx0 : ℚ := (d.1 : ℚ)
  let fy0 : ℚ := (d.2 : ℚ)
  let f1 : ℚ × ℚ :=
    match closestExitScan rsqrt st.gs st.exits p.1 p.2 with
    | some best =>
      let dd := max best.2.2 (1/10)
      (fx0 + ((best.2.1.1 : ℚ) - (p.1 : ℚ)) / (dd * 5),
       fy0 + ((best.2.1.2 : ℚ) - (p.2 : ℚ)) / (dd * 5))
    | none => (fx0, fy0)
  let f2 : ℚ × ℚ := st.hazards.foldl
    (fun f h =>
      let hx := toGrid st.gs h.px
      let hy := toGrid st.gs h.py
      let d0 := rsqrt (((p.1 - hx) ^ 2 + (p.2 - hy) ^ 2 : ℤ) : ℚ)
      if d0 < h.radius * (st.gs : ℚ) / 10 then
        let dd := max d0 (1/10)
        (f.1 - ((hx : ℚ) - (p.1 : ℚ)) / (dd * 3), f.2 - ((hy : ℚ) - (p.2 : ℚ)) / (dd * 3))
      else f)
    f1
  let mag := rsqrt (f2.1 ^ 2 + f2.2 ^ 2)
  let f3 : ℚ × ℚ := if mag > 0 then (f2.1 / mag, f2.2 / mag) else f2
  let nx := max 0 (min (roundQ ((p.1 : ℚ) + f3.1)) ((st.gs : ℤ) - 1))
  let ny := max 0 (min (roundQ ((p.2 : ℚ) + f3.2)) ((st.gs : ℤ) - 1))
  if st.wallCh ny nx = 0 then
    let evac := st.exits.any fun e =>
      |nx - toGrid st.gs e.1| ≤ 1 ∧ |ny - toGrid st.gs e.2| ≤ 1
    ((nx, ny), evac)
  else (p, false)

/-- `_calculate_gini`: `0` for an all-zero array, else
`Σ (2i - n - 1)·a_sorted / (n · Σ a)`. -/
def giniQ (l : List ℚ) : ℚ :=
  if l.all (fun a => a = 0) then 0
  else
    let s := l.mergeSort (fun a b => decide (a ≤ b))
    let n : ℚ := (l.length : ℚ)
    (s.enum.foldl (fun acc ia => acc + (2 * ((ia.1 : ℚ) + 1) - n - 1) * ia.2) 0)
      / (n * s.foldl (· + ·) 0)

/-- The per-exit usage counts of `step`: every evacuated agent is attributed
to its closest exit (first index on ties). -/
def exitUsage (rsqrt : ℚ → ℚ) (st : RLState) : List ℚ :=
  (st.positions.zip st.status).foldl
    (fun u ps =>
      if ps.2 then
        match closestExitScan rsqrt st.gs st.exits ps.1.1 ps.1.2 with
        | some best => u.set best.1 (u.getD best.1 0 + 1)
        | none => u
      else u)
    (List.replicate st.exits.length 0)

/-- Adds one active agent to the agent channel (`grid[y, x, 0] += 1`). -/
def bumpCh (g : Grid) (p : ℤ × ℤ) : Grid :=
  fun y x => if y = p.2 ∧ x = p.1 then g y x + 1 else g y x

/-- The hazard penalty of `step`: `Σ grid[y, x, 2]` over the active agents
(evaluated on the post-move state). -/
def hazPenaltyOf (st : RLState) : ℚ :=
  (st.positions.zip st.status).foldl
    (fun acc ps => if ps.2 then acc else acc + st.hazCh ps.1.2 ps.1.1) 0

/-- The fairness component of the reward, exactly as gated in `step`: only
when there is at least one exit AND at least one evacuated agent AND the
usage counts sum to something positive is `max(0, 0.1 - gini) * 5` added. -/
def fairnessBonusOf (rsqrt : ℚ → ℚ) (st : RLState) : ℚ :=
  let usage := exitUsage rsqrt st
  let usum := usage.foldl (· + ·) 0
  if st.exits ≠ [] ∧ 0 < statusSum st then
    if 0 < usum then max 0 (1/10 - giniQ (usage.map (· / usum))) * 5 else 0
  else 0

/-- `EvacuationEnvironment.step`: move every active agent, rebuild the agent
channel, compute the reward (`10·Δevac − 2·hazard_penalty + fairness`), the
`done` flag (`all evacuated ∨ time_step ≥ 1000`) and the info triple
`(evacuated, hazard_penalty, time_step)`.  There is NO terminal-state check:
a call in a terminal state runs exactly like any other. -/
def rlStep (rsqrt : ℚ → ℚ) (st : RLState) (a : Fin 8) :
    RLState × ℚ × Bool × (ℕ × ℚ × ℕ) :=
  let movedL := (st.positions.zip st.status).map fun ps =>
    if ps.2 then (ps.1, true)
    else
      let r := rlMoveAgent rsqrt st a ps.1
      (r.1, r.2)
  let positions' := movedL.map Prod.fst
  let status' := movedL.map Prod.snd
  let agentCh' := (positions'.zip status').foldl
    (fun g ps => if ps.2 then g else bumpCh g ps.1) (fun _ _ => 0)
  let sum' := status'.count true
  let evacNow : ℚ := (sum' : ℚ) - (st.prevEvac : ℚ)
  let st' : RLState :=
    { st with positions := positions', status := status', agentCh := agentCh',
              prevEvac := sum', timeStep := st.timeStep + 1 }
  let pen : ℚ := hazPenaltyOf st'
  let reward := evacNow * 10 - pen * 2 + fairnessBonusOf rsqrt st'
  let done := (sum' = st.numAgents) ∨ (1000 ≤ st.timeStep)
  (st', reward, done, (sum', pen, st.timeStep + 1))

/-- A cell is a legal agent start: `grid[y,x,1] == 0 and grid[y,x,2] < 0.5`. -/
def validStart (wall haz : Grid) (y x : ℤ) : Prop := wall y x = 0 ∧ haz y x < 1/2

instance (wall haz : Grid) (y x : ℤ) : Decidable (validStart wall haz y x) := by
  unfold validStart; infer_instance

/-- The rejection-sampling placement loop of `reset`, with the random stream
`draws` passed in and explicit fuel standing for the unbounded `while`:
`none` means the loop has not terminated within `fuel` iterations. -/
def placeLoop (gs : ℕ) (wall haz : Grid) (n : ℕ) (draws : ℕ → Fin gs × Fin gs) :
    ℕ → ℕ → ℕ → List (ℤ × ℤ) → Grid → Option (List (ℤ × ℤ) × Grid)
  | 0, _, count, acc, g => if count < n then none else some (acc, g)
  | fuel + 1, i, count, acc, g =>
    if count < n then
      let d := draws i
      let x : ℤ := (d.1 : ℕ)
      let y : ℤ := (d.2 : ℕ)
      if validStart wall haz y x then
        placeLoop gs wall haz n draws fuel (i + 1) (count + 1)
          (acc ++ [(x, y)]) (bumpCh g (x, y))
      else placeLoop gs wall haz n draws fuel (i + 1) count acc g
    else some (acc, g)

/-- `EvacuationEnvironment.reset`: clear the agent channel, zero the
statuses and counters, then place `num_agents` agents by rejection
sampling. -/
def rlReset (gs n : ℕ) (exits : List (ℚ × ℚ)) (hazards : List Hazard)
    (wall haz : Grid) (draws : ℕ → Fin gs × Fin gs) (fuel : ℕ) : Option RLState :=
  (placeLoop gs wall haz n draws fuel 0 0 [] (fun _ _ => 0)).map fun r =>
    ⟨gs, n, exits, hazards, wall, haz, r.2, r.1, List.replicate n false, 0, 0⟩

/-! ### Concrete configurations used in closed statements -/

/-- The all-zero grid. -/
def zeroGrid : Grid := fun _ _ => 0

/-- An all-wall grid (wall channel constantly 1). -/
def wallFullGrid : Grid := fun _ _ => 1

/-- A fire hazard at world `(5, 5)` with radius 10 and intensity 1: at
resolution 2 it maps to grid cell `(0, 0)` with grid radius 1, so the
initial fire field is exactly the indicator of that cell. -/
def fireHz : Hazard := ⟨5, 5, 10, 1, "fire"⟩

/-- The initial fire field of the `fireHz` scenario at resolution 2. -/
def fireF0c : Grid := fireInit sqrtQ 2 [fireHz]

/-- A computable stand-in for the Euclidean norm of a 2-vector: it dominates
each component's absolute value, is bounded by their sum, and is absolutely
homogeneous — the only properties of `torch.norm` any statement uses. -/
def nrm0 : ℚ → ℚ → ℚ := fun x y => |x| + |y|

/-- Micro counterexample scenario: a single exit at `(10, 10)`, no walls. -/
def c1Layout : Layout := ⟨[], [(10, 10)], []⟩

/-- Micro counterexample initial draw: one agent exactly at the exit. -/
def c1Init : List (ℚ × ℚ) := [(10, 10)]

/-- A hazard centred at world `(5, 5)` (radius 2, intensity 1). -/
def hz8 : Hazard := ⟨5, 5, 2, 1, "fire"⟩

/-- A terminal RL state: one agent, already evacuated (`status = [true]`,
`prevEvac = 1`), one exit at world `(10, 0)`, grid 20, step counter 5. -/
def c6State : RLState :=
  ⟨20, 1, [(10, 0)], [], zeroGrid, zeroGrid, zeroGrid, [(1, 0)], [true], 1, 5⟩

/-- An RL state with one active agent at cell `(1, 0)`, one exit at world
`(10, 0)` (grid cell `(10, 0)`), no hazards, no walls. -/
def c7State : RLState :=
  ⟨20, 1, [(10, 0)], [], zeroGrid, zeroGrid, zeroGrid, [(1, 0)], [false], 0, 0⟩

/-- A degenerate draw stream on the 1×1 grid. -/
def draws1 : ℕ → Fin 1 × Fin 1 := fun _ => (⟨0, Nat.zero_lt_one⟩, ⟨0, Nat.zero_lt_one⟩)

/-- The state `step` returns from `c6State` (only the clock moved). -/
def c6Post : RLState :=
  ⟨20, 1, [(10, 0)], [], zeroGrid, zeroGrid, zeroGrid, [(1, 0)], [true], 1, 6⟩

/-- The state `step` returns from `c7State` under action 2: the agent walked
to `(2, 0)` and is still active. -/
def c7Post : RLState :=
  ⟨20, 1, [(10, 0)], [], zeroGrid, zeroGrid, bumpCh zeroGrid (2, 0),
   [(2, 0)], [false], 0, 1⟩

/-- The Gini coefficient exactly as the SPEC words it for the reward claim:
the Gini of the usage shares normalized to sum 1, with an all-zero share
vector yielding 0.  (Definition follows the spec, for comparison with the
source's gated computation.) -/
def specGini (usage : List ℚ) : ℚ :=
  let usum := usage.foldl (· + ·) 0
  if usum = 0 then 0 else giniQ (usage.map (· / usum))

/-- The fairness bonus exactly as the SPEC words it: `max(0, 0.1 − G) · 5`,
unconditionally.  (Definition follows the spec, for comparison with
`fairnessBonusOf`, which the source gates.) -/
def specFairnessBonus (rsqrt : ℚ → ℚ) (st : RLState) : ℚ :=
  max 0 (1/10 - specGini (exitUsage rsqrt st)) * 5

/-- The step reward exactly as the SPEC words it:
`10·(newly evacuated) − 2·(hazard intensity at active agents) + fairness`.
(Definition follows the spec, for comparison with the source's reward.) -/
def specReward (rsqrt : ℚ → ℚ) (stPre stPost : RLState) : ℚ :=
  ((statusSum stPost : ℚ) - (statusSum stPre : ℚ)) * 10
    - hazPenaltyOf stPost * 2 + specFairnessBonus rsqrt stPost

/-! # Theorems

General facts about the grid reductions, then the stage lemmas, then one
theorem per claim (with its witness or counterexample). -/

theorem mem_gridCells {n : ℕ} {p : ℤ × ℤ} : p ∈ gridCells n ↔ inB n p.1 p.2 := by
  unfold gridCells inB
  rw [Finset.mem_product, Finset.mem_Icc, Finset.mem_Icc]
  omega

theorem gridSum_mono {n : ℕ} {g h : Grid}
    (hle : ∀ y x, inB n y x → g y x ≤ h y x) : gridSum n g ≤ gridSum n h :=
  Finset.sum_le_sum fun p hp => hle p.1 p.2 (mem_gridCells.mp hp)

theorem gridSum_nonneg {n : ℕ} {g : Grid}
    (h : ∀ y x, inB n y x → 0 ≤ g y x) : 0 ≤ gridSum n g :=
  Finset.sum_nonneg fun p hp => h p.1 p.2 (mem_gridCells.mp hp)

theorem gridSum_two (g : Grid) : gridSum 2 g = g 0 0 + g 0 1 + g 1 0 + g 1 1 := by
  have h : gridCells 2 = {(0, 0), (0, 1), (1, 0), (1, 1)} := by decide
  unfold gridSum
  rw [h, Finset.sum_insert (by decide), Finset.sum_insert (by decide),
    Finset.sum_insert (by decide), Finset.sum_singleton]
  norm_num
  ring

/-! ### Mesoscopic stage lemmas -/

theorem mesoRho_nonneg {f : Fin 8 → Grid} (hf : NonnegF f) (y x : ℤ) :
    0 ≤ mesoRho f y x :=
  Finset.sum_nonneg fun k _ => hf k y x

theorem sum_collisionTerm (f : Fin 8 → Grid) (y x : ℤ) :
    ∑ k : Fin 8, collisionTerm f k y x = 0 := by
  unfold collisionTerm
  rw [← Finset.sum_div]
  have h : ∑ k : Fin 8, -(f k y x - mesoRho f y x / 8) = 0 := by
    rw [Finset.sum_neg_distrib, Finset.sum_sub_distrib]
    simp [mesoRho, Finset.sum_const, Finset.card_univ]
    ring
  rw [h, zero_div]

theorem mesoMass_collide (gs : ℕ) (f : Fin 8 → Grid) :
    mesoMass gs (mesoCollide f) = mesoMass gs f := by
  unfold mesoMass gridSum mesoCollide
  have h : ∀ k : Fin 8, ∑ p in gridCells gs,
      (f k p.1 p.2 + (1/10) * collisionTerm f k p.1 p.2)
        = (∑ p in gridCells gs, f k p.1 p.2)
          + ∑ p in gridCells gs, (1/10) * collisionTerm f k p.1 p.2 := fun k =>
    Finset.sum_add_distrib
  rw [Finset.sum_congr rfl fun k _ => h k, Finset.sum_add_distrib]
  have hz : ∑ k : Fin 8, ∑ p in gridCells gs, (1/10 : ℚ) * collisionTerm f k p.1 p.2 = 0 := by
    rw [Finset.sum_comm]
    refine Finset.sum_eq_zero fun p _ => ?_
    rw [← Finset.mul_sum, sum_collisionTerm, mul_zero]
  rw [hz, add_zero]

theorem gridSum_shift_le (n : ℕ) (g : Grid) (hg : ∀ y x, 0 ≤ g y x) (sy sx : ℤ) :
    gridSum n (fun y x => if inB n y x ∧ inB n (y - sy) (x - sx)
        then g (y - sy) (x - sx) else 0)
      ≤ gridSum n g := by
  unfold gridSum
  have h1 : ∑ p in gridCells n,
      (if inB n p.1 p.2 ∧ inB n (p.1 - sy) (p.2 - sx) then g (p.1 - sy) (p.2 - sx) else 0)
        = ∑ p in (gridCells n).filter (fun p => inB n (p.1 - sy) (p.2 - sx)),
            g (p.1 - sy) (p.2 - sx) := by
    rw [Finset.sum_filter]
    refine Finset.sum_congr rfl fun p hp => ?_
    have hb : inB n p.1 p.2 := mem_gridCells.mp hp
    by_cases h : inB n (p.1 - sy) (p.2 - sx) <;> simp [hb, h]
  rw [h1]
  have h2 : ∑ p in (gridCells n).filter (fun p => inB n (p.1 - sy) (p.2 - sx)),
      g (p.1 - sy) (p.2 - sx)
        = ∑ q in ((gridCells n).filter
            (fun p => inB n (p.1 - sy) (p.2 - sx))).image
              (fun p => (p.1 - sy, p.2 - sx)), g q.1 q.2 := by
    rw [Finset.sum_image]
    intro p _ q _ hpq
    have h1 := congrArg Prod.fst hpq
    have h2 := congrArg Prod.snd hpq
    simp only at h1 h2
    exact Prod.ext (by omega) (by omega)
  rw [h2]
  refine Finset.sum_le_sum_of_subset_of_nonneg ?_ fun q _ _ => hg q.1 q.2
  intro q hq
  obtain ⟨p, hp, rfl⟩ := Finset.mem_image.mp hq
  exact mem_gridCells.mpr (Finset.mem_filter.mp hp).2

theorem mesoMass_stream_le (vel : Fin 8 → ℚ × ℚ) (gs : ℕ) (f : Fin 8 → Grid)
    (hf : NonnegF f) :
    mesoMass gs (streamingStep vel gs f) ≤ mesoMass gs f := by
  unfold mesoMass streamingStep
  exact Finset.sum_le_sum fun k _ => gridSum_shift_le gs (f k) (fun y x => hf k y x) _ _

theorem mesoMass_boundary_le (gs : ℕ) (ly : Layout) (f : Fin 8 → Grid)
    (hf : NonnegF f) :
    mesoMass gs (applyBoundary gs ly f) ≤ mesoMass gs f := by
  unfold mesoMass applyBoundary
  refine Finset.sum_le_sum fun k _ => gridSum_mono fun y x _ => ?_
  by_cases h : (x, y) ∈ wallCells gs ly.walls <;> simp [h, hf k y x]

theorem mesoMass_hazard_ge (vel : Fin 8 → ℚ × ℚ) (rsqrt : ℚ → ℚ) (gs : ℕ)
    (hs : List Hazard) (f : Fin 8 → Grid) (hf : NonnegF f) :
    mesoMass gs f ≤ mesoMass gs (addHazardInfluence vel rsqrt gs hs f) := by
  unfold addHazardInfluence
  by_cases hh : hs = []
  · simp [hh]
  · rw [if_neg hh]
    unfold mesoMass
    refine Finset.sum_le_sum fun k _ => gridSum_mono fun y x _ => ?_
    dsimp only
    split_ifs with h1
    · have hcl : 0 ≤ clampQ ((-(vel k).1 * gradAlong1 gs (hazardFieldMeso rsqrt gs hs) y x
          - (vel k).2 * gradAlong0 gs (hazardFieldMeso rsqrt gs hs) y x)
            * hazardFieldMeso rsqrt gs hs y x * (1/10)) 0 (mesoRho f y x) :=
        le_min (le_max_right _ _) (mesoRho_nonneg hf y x)
      unfold clampQ at hcl ⊢
      linarith
    · exact le_refl _

theorem mesoMass_exit_ge (vel : Fin 8 → ℚ × ℚ) (rexp rsqrt : ℚ → ℚ) (gs : ℕ)
    (exits : List (ℚ × ℚ)) (f : Fin 8 → Grid) :
    mesoMass gs f ≤ mesoMass gs (calcExitAttraction vel rexp rsqrt gs exits f) := by
  unfold calcExitAttraction
  by_cases he : exits = []
  · simp [he]
  · rw [if_neg he]
    unfold mesoMass
    refine Finset.sum_le_sum fun k _ => gridSum_mono fun y x hb => ?_
    dsimp only
    rw [if_pos hb]
    split_ifs with hd
    · linarith
    · linarith

/-! ### Mesoscopic non-negativity lemmas -/

theorem clampQ_nonneg (x hi : ℚ) (hhi : 0 ≤ hi) : 0 ≤ clampQ x 0 hi :=
  le_min (le_max_right _ _) hhi

theorem nonneg_mesoCollide {f : Fin 8 → Grid} (hf : NonnegF f) :
    NonnegF (mesoCollide f) := by
  intro k y x
  have hr : 0 ≤ mesoRho f y x := mesoRho_nonneg hf y x
  have hk := hf k y x
  unfold mesoCollide collisionTerm relaxTime
  by_cases h : mesoRho f y x > 4
  · rw [if_pos h]; linarith
  · rw [if_neg h]; rw [div_one]; linarith

theorem nonneg_addHazardInfluence (vel : Fin 8 → ℚ × ℚ) (rsqrt : ℚ → ℚ)
    (gs : ℕ) (hs : List Hazard) {f : Fin 8 → Grid} (hf : NonnegF f) :
    NonnegF (addHazardInfluence vel rsqrt gs hs f) := by
  intro k y x
  unfold addHazardInfluence
  by_cases hh : hs = []
  · rw [if_pos hh]; exact hf k y x
  · rw [if_neg hh]
    dsimp only
    split_ifs with h1
    · exact add_nonneg (hf k y x) (clampQ_nonneg _ _ (mesoRho_nonneg hf y x))
    · exact hf k y x

theorem nonneg_calcExitAttraction (vel : Fin 8 → ℚ × ℚ) (rexp rsqrt : ℚ → ℚ)
    (gs : ℕ) (exits : List (ℚ × ℚ)) {f : Fin 8 → Grid} (hf : NonnegF f) :
    NonnegF (calcExitAttraction vel rexp rsqrt gs exits f) := by
  intro k y x
  unfold calcExitAttraction
  by_cases he : exits = []
  · rw [if_pos he]; exact hf k y x
  · rw [if_neg he]
    dsimp only
    split_ifs with h1 h2
    · have := hf k y x; linarith
    · have := hf k y x; linarith
    · exact le_refl 0

theorem nonneg_streamingStep (vel : Fin 8 → ℚ × ℚ) (gs : ℕ) {f : Fin 8 → Grid}
    (hf : NonnegF f) : NonnegF (streamingStep vel gs f) := by
  intro k y x
  unfold streamingStep
  dsimp only
  split_ifs with h1
  · exact hf k _ _
  · exact le_refl 0

theorem nonneg_applyBoundary (gs : ℕ) (ly : Layout) {f : Fin 8 → Grid}
    (hf : NonnegF f) : NonnegF (applyBoundary gs ly f) := by
  intro k y x
  unfold applyBoundary
  split_ifs with h1
  · exact le_refl 0
  · exact hf k y x

theorem nonneg_initialDensity (gs : ℕ) (ly : Layout)
    (hc : ∀ c ∈ ly.clusters, 0 ≤ c.cnt) : ∀ y x, 0 ≤ initialDensity gs ly y x := by
  unfold initialDensity
  by_cases h : ly.clusters = []
  · rw [if_pos h]
    intro y x
    dsimp only
    split_ifs
    · norm_num
    · exact le_refl 0
  · rw [if_neg h]
    have key : ∀ (cls : List Cluster) (g : ℤ → ℤ → ℚ),
        (∀ y x, 0 ≤ g y x) → (∀ c ∈ cls, 0 ≤ c.cnt) → ∀ y x,
          0 ≤ cls.foldl
            (fun g cl =>
              let xi := clampI (toGrid gs cl.cx) 0 ((gs : ℤ) - 1)
              let yi := clampI (toGrid gs cl.cy) 0 ((gs : ℤ) - 1)
              fun y x => if y = yi ∧ x = xi then g y x + cl.cnt else g y x)
            g y x := by
      intro cls
      induction cls with
      | nil => intro g hg _ y x; exact hg y x
      | cons c rest ih =>
        intro g hg hcs y x
        refine ih _ ?_ (fun c' hc' => hcs c' (List.mem_cons_of_mem _ hc')) y x
        intro y x
        dsimp only
        split_ifs with hyx
        · exact add_nonneg (hg y x) (hcs c (List.mem_cons_self _ _))
        · exact hg y x
    exact key ly.clusters _ (fun _ _ => le_refl 0) hc

theorem nonneg_mesoF0 (gs : ℕ) (ly : Layout)
    (hc : ∀ c ∈ ly.clusters, 0 ≤ c.cnt) : NonnegF (mesoF0 gs ly) := by
  intro k y x
  unfold mesoF0
  split_ifs with h1
  · exact div_nonneg (nonneg_initialDensity gs ly hc y x) (by norm_num)
  · exact le_refl 0

theorem wallsZero_applyBoundary (gs : ℕ) (ly : Layout) (f : Fin 8 → Grid) :
    WallsZeroF gs ly (applyBoundary gs ly f) := by
  intro k p hp
  unfold applyBoundary
  rw [if_pos]
  simpa using hp

theorem mesoRun_nonneg (vel : Fin 8 → ℚ × ℚ) (rexp rsqrt : ℚ → ℚ) (gs : ℕ)
    (ly : Layout) (hs : List Hazard) (hc : ∀ c ∈ ly.clusters, 0 ≤ c.cnt) :
    ∀ t, NonnegF (mesoRun vel rexp rsqrt gs ly hs t) := by
  intro t
  induction t with
  | zero => exact nonneg_applyBoundary gs ly (nonneg_mesoF0 gs ly hc)
  | succ t ih =>
    exact nonneg_applyBoundary gs ly
      (nonneg_streamingStep vel gs
        (nonneg_calcExitAttraction vel rexp rsqrt gs ly.exits
          (nonneg_addHazardInfluence vel rsqrt gs hs
            (nonneg_mesoCollide ih))))

/-- Claim C5: at the end of every mesoscopic time step (after the streaming
and boundary-enforcement stages) every distribution entry `f_k(x, y)` is
non-negative — hence `ρ = Σ_k f_k ≥ 0` everywhere — and `f_k = 0` at every
wall cell, so `Σ_k f_k(wall) = 0`.  `mesoRun t` is the state at the end of
step `t`; the only hypothesis is that the scenario's seeded cluster counts
are non-negative. -/
theorem C5_meso_nonneg_wall_zero (vel : Fin 8 → ℚ × ℚ) (rexp rsqrt : ℚ → ℚ)
    (gs : ℕ) (ly : Layout) (hs : List Hazard)
    (hc : ∀ c ∈ ly.clusters, 0 ≤ c.cnt) (t : ℕ) :
    NonnegF (mesoRun vel rexp rsqrt gs ly hs t)
    ∧ (∀ y x, 0 ≤ mesoRho (mesoRun vel rexp rsqrt gs ly hs t) y x)
    ∧ WallsZeroF gs ly (mesoRun vel rexp rsqrt gs ly hs t)
    ∧ (∀ p ∈ wallCells gs ly.walls,
        mesoRho (mesoRun vel rexp rsqrt gs ly hs t) p.2 p.1 = 0) := by
  have hn := mesoRun_nonneg vel rexp rsqrt gs ly hs hc t
  have hw : WallsZeroF gs ly (mesoRun vel rexp rsqrt gs ly hs t) := by
    cases t with
    | zero => exact wallsZero_applyBoundary gs ly _
    | succ t => exact wallsZero_applyBoundary gs ly _
  refine ⟨hn, fun y x => mesoRho_nonneg hn y x, hw, fun p hp => ?_⟩
  unfold mesoRho
  exact Finset.sum_eq_zero fun k _ => hw k p hp

/-- Witness for C5 at a concrete instance: the empty 2×2 layout with one
exit, three steps. -/
theorem C5_meso_nonneg_wall_zero_witness :
    (∀ c ∈ originExitLayout.clusters, 0 ≤ c.cnt)
    ∧ NonnegF (mesoRun velQ rexpQ sqrtQ 2 originExitLayout [] 3)
    ∧ WallsZeroF 2 originExitLayout (mesoRun velQ rexpQ sqrtQ 2 originExitLayout [] 3) := by
  have h : ∀ c ∈ originExitLayout.clusters, 0 ≤ c.cnt := by
    intro c hc
    simp [originExitLayout] at hc
  obtain ⟨h1, _, h3, _⟩ := C5_meso_nonneg_wall_zero velQ rexpQ sqrtQ 2 originExitLayout [] h 3
  exact ⟨h, h1, h3⟩

/-- Claim C2 (amended): per stage of a mesoscopic time step, total mass is
conserved exactly by the BGK collision stage and never increased by the
streaming and wall-zeroing stages (it can only leave through the grid
boundary and the walls); the hazard-repulsion and exit-attraction stages,
however, never decrease total mass — they add their non-negative adjustments
without compensation, and `C2_exit_attraction_creates_mass` shows a strict
increase, so mass is NOT conserved up to the exit sink. -/
theorem C2_meso_mass_stages (vel : Fin 8 → ℚ × ℚ) (rexp rsqrt : ℚ → ℚ)
    (gs : ℕ) (ly : Layout) (hs : List Hazard) (f : Fin 8 → Grid)
    (hf : NonnegF f) :
    mesoMass gs (mesoCollide f) = mesoMass gs f
    ∧ mesoMass gs (streamingStep vel gs f) ≤ mesoMass gs f
    ∧ mesoMass gs (applyBoundary gs ly f) ≤ mesoMass gs f
    ∧ mesoMass gs f ≤ mesoMass gs (addHazardInfluence vel rsqrt gs hs f)
    ∧ mesoMass gs f ≤ mesoMass gs (calcExitAttraction vel rexp rsqrt gs ly.exits f) :=
  ⟨mesoMass_collide gs f, mesoMass_stream_le vel gs f hf,
   mesoMass_boundary_le gs ly f hf, mesoMass_hazard_ge vel rsqrt gs hs f hf,
   mesoMass_exit_ge vel rexp rsqrt gs ly.exits f⟩

/-- Witness for C2 at a concrete instance. -/
theorem C2_meso_mass_stages_witness :
    NonnegF zeroF ∧ mesoMass 2 (mesoCollide zeroF) = mesoMass 2 zeroF :=
  ⟨fun _ _ _ => le_refl 0,
   (C2_meso_mass_stages velQ rexpQ sqrtQ 2 originExitLayout [] zeroF
     (fun _ _ _ => le_refl 0)).1⟩

theorem natSqrt_two : Nat.sqrt 2 = 1 := by
  have h1 : 1 ≤ Nat.sqrt 2 := Nat.le_sqrt.mpr (by norm_num)
  have h2 : Nat.sqrt 2 < 2 := Nat.sqrt_lt.mpr (by norm_num)
  omega

theorem sqrtQ_zero : sqrtQ 0 = 0 := by
  have ht : ((0:ℚ).num.toNat * (0:ℚ).den) = 0 := rfl
  simp [sqrtQ, ht]

theorem sqrtQ_one : sqrtQ 1 = 1 := by
  have ht : ((1:ℚ).num.toNat * (1:ℚ).den) = 1 := rfl
  simp [sqrtQ, ht]

theorem sqrtQ_two : sqrtQ 2 = 1 := by
  have ht : ((2:ℚ).num.toNat * (2:ℚ).den) = 2 := rfl
  have hden : ((2:ℚ).den : ℚ) = 1 := rfl
  rw [sqrtQ, ht, natSqrt_two, hden]
  norm_num

theorem toGrid_two_zero : toGrid 2 0 = 0 := by
  norm_num [toGrid, pyInt]

theorem toGrid_two_one : toGrid 2 1 = 0 := by
  norm_num [toGrid, pyInt]
  decide

theorem toGrid_two_two : toGrid 2 2 = 0 := by
  norm_num [toGrid, pyInt]
  decide

theorem originA_00 : exitPotential rexpQ sqrtQ 2 [((1:ℚ), (2:ℚ))] 0 0 = 1 := by
  simp only [exitPotential, List.foldl_cons, List.foldl_nil, toGrid_two_one, toGrid_two_two]
  norm_num [sqrtQ_zero, rexpQ]

theorem originA_01 : exitPotential rexpQ sqrtQ 2 [((1:ℚ), (2:ℚ))] 0 1 = 1/6 := by
  simp only [exitPotential, List.foldl_cons, List.foldl_nil, toGrid_two_one, toGrid_two_two]
  norm_num [sqrtQ_one, rexpQ]

theorem originA_10 : exitPotential rexpQ sqrtQ 2 [((1:ℚ), (2:ℚ))] 1 0 = 1/6 := by
  simp only [exitPotential, List.foldl_cons, List.foldl_nil, toGrid_two_one, toGrid_two_two]
  norm_num [sqrtQ_one, rexpQ]

theorem originA_11 : exitPotential rexpQ sqrtQ 2 [((1:ℚ), (2:ℚ))] 1 1 = 1/6 := by
  simp only [exitPotential, List.foldl_cons, List.foldl_nil, toGrid_two_one, toGrid_two_two]
  norm_num [sqrtQ_two, rexpQ]

theorem originGX_00 : gradAlong1 2 (exitPotential rexpQ sqrtQ 2 [((1:ℚ), (2:ℚ))]) 0 0
    = -(5/6) := by
  rw [gradAlong1]
  norm_num [originA_00, originA_01]

theorem originGX_01 : gradAlong1 2 (exitPotential rexpQ sqrtQ 2 [((1:ℚ), (2:ℚ))]) 0 1
    = -(5/6) := by
  rw [gradAlong1]
  norm_num [originA_00, originA_01]

theorem originGX_10 : gradAlong1 2 (exitPotential rexpQ sqrtQ 2 [((1:ℚ), (2:ℚ))]) 1 0
    = 0 := by
  rw [gradAlong1]
  norm_num [originA_10, originA_11]

theorem originGX_11 : gradAlong1 2 (exitPotential rexpQ sqrtQ 2 [((1:ℚ), (2:ℚ))]) 1 1
    = 0 := by
  rw [gradAlong1]
  norm_num [originA_10, originA_11]

theorem originGY_00 : gradAlong0 2 (exitPotential rexpQ sqrtQ 2 [((1:ℚ), (2:ℚ))]) 0 0
    = -(5/6) := by
  rw [gradAlong0]
  norm_num [originA_00, originA_10]

theorem originGY_01 : gradAlong0 2 (exitPotential rexpQ sqrtQ 2 [((1:ℚ), (2:ℚ))]) 0 1
    = 0 := by
  rw [gradAlong0]
  norm_num [originA_01, originA_11]

theorem originGY_10 : gradAlong0 2 (exitPotential rexpQ sqrtQ 2 [((1:ℚ), (2:ℚ))]) 1 0
    = -(5/6) := by
  rw [gradAlong0]
  norm_num [originA_00, originA_10]

theorem originGY_11 : gradAlong0 2 (exitPotential rexpQ sqrtQ 2 [((1:ℚ), (2:ℚ))]) 1 1
    = 0 := by
  rw [gradAlong0]
  norm_num [originA_01, originA_11]

/-- Counterexample to C2 as stated: on the empty 2×2 layout with one exit at
the origin and the ZERO distribution, the exit-attraction stage alone
produces strictly positive total mass — an interior stage creates mass out
of nothing (with the monotone stand-ins `rexpQ`/`sqrtQ` in place of
`np.exp`/`np.sqrt`; only the strict monotonicity of the exponential and the
values `√0 = 0`, `√1 = 1` enter, which the genuine functions share). -/
theorem C2_exit_attraction_creates_mass :
    mesoMass 2 zeroF
      < mesoMass 2 (calcExitAttraction velQ rexpQ sqrtQ 2 originExitLayout.exits zeroF) := by
  have h1 : mesoMass 2 zeroF = 0 := by
    simp [mesoMass, gridSum, zeroF]
  have hex : originExitLayout.exits = [((1:ℚ), (2:ℚ))] := rfl
  rw [h1, hex]
  simp only [mesoMass, Fin.sum_univ_eight, gridSum_two, calcExitAttraction]
  norm_num [velQ, inB, zeroF,
    originGX_00, originGX_01, originGX_10, originGX_11,
    originGY_00, originGY_01, originGY_10, originGY_11]

/-! ### Macroscopic fire-field lemmas (C3) -/

theorem convFire_nonneg (gs : ℕ) {F : Grid} (h0 : ∀ y x, 0 ≤ F y x) (y x : ℤ) :
    0 ≤ convFire gs F y x := by
  have hv : ∀ yy xx : ℤ, (0:ℚ) ≤ if inB gs yy xx then F yy xx else 0 := by
    intro yy xx
    split_ifs
    · exact h0 yy xx
    · exact le_refl 0
  unfold convFire
  dsimp only
  refine add_nonneg (add_nonneg (add_nonneg (add_nonneg (add_nonneg
    (add_nonneg (add_nonneg ?_ ?_) ?_) ?_) ?_) ?_) ?_) ?_ <;>
    exact mul_nonneg (by norm_num) (hv _ _)

theorem clampQ_le_one (x : ℚ) : clampQ x 0 1 ≤ 1 := min_le_right _ _

theorem fireStep_eq_spec (gs : ℕ) (wl : List (ℤ × ℤ)) (F : Grid)
    (h0 : ∀ y x, 0 ≤ F y x) (hout : ∀ y x, ¬ inB gs y x → F y x = 0) :
    fireStep gs wl F = specFireUpdate gs wl F := by
  unfold fireStep specFireUpdate
  by_cases hs : 0 < gridSum gs F
  · rw [if_pos hs]
  · rw [if_neg hs]
    have hz : ∀ y x, F y x = 0 := by
      intro y x
      by_cases hb : inB gs y x
      · have hsum : gridSum gs F = 0 :=
          le_antisymm (not_lt.mp hs) (gridSum_nonneg fun y x _ => h0 y x)
        have := (Finset.sum_eq_zero_iff_of_nonneg
          (fun p (hp : p ∈ gridCells gs) => h0 p.1 p.2)).mp hsum (y, x)
          (mem_gridCells.mpr hb)
        exact this
      · exact hout y x hb
    funext y x
    by_cases hb : inB gs y x
    · rw [if_pos hb]
      by_cases hwc : (x, y) ∈ wl
      · rw [if_pos hwc, hz y x]
      · rw [if_neg hwc, hz y x]
        have hcv : convFire gs F y x = 0 := by
          unfold convFire
          dsimp only
          rw [hz, hz, hz, hz, hz, hz, hz, hz]
          split_ifs <;> norm_num
        rw [hcv]
        unfold clampQ
        norm_num
    · rw [if_neg hb, hz y x]

theorem fireStep_bounds (gs : ℕ) (wl : List (ℤ × ℤ)) (F : Grid)
    (h0 : ∀ y x, 0 ≤ F y x) (h1 : ∀ y x, F y x ≤ 1) (y x : ℤ) :
    0 ≤ fireStep gs wl F y x ∧ fireStep gs wl F y x ≤ 1 := by
  unfold fireStep
  by_cases hs : 0 < gridSum gs F
  · rw [if_pos hs]
    split_ifs
    · exact ⟨le_refl 0, by norm_num⟩
    · exact ⟨clampQ_nonneg _ _ (by norm_num), clampQ_le_one _⟩
    · exact ⟨le_refl 0, by norm_num⟩
  · rw [if_neg hs]
    exact ⟨h0 y x, h1 y x⟩

theorem fireStep_wall (gs : ℕ) (wl : List (ℤ × ℤ)) (F : Grid)
    (hw : ∀ p ∈ wl, F p.2 p.1 = 0) : ∀ p ∈ wl, fireStep gs wl F p.2 p.1 = 0 := by
  intro p hp
  unfold fireStep
  by_cases hs : 0 < gridSum gs F
  · rw [if_pos hs]
    show (if inB gs p.2 p.1 then
        if (p.1, p.2) ∈ wl then (0:ℚ)
        else clampQ (F p.2 p.1 + (1/10) * convFire gs F p.2 p.1) 0 1
      else 0) = 0
    by_cases hb : inB gs p.2 p.1
    · rw [if_pos hb, if_pos (by simpa using hp)]
    · rw [if_neg hb]
  · rw [if_neg hs]
    exact hw p hp

theorem fireStep_out (gs : ℕ) (wl : List (ℤ × ℤ)) (F : Grid)
    (hout : ∀ y x, ¬ inB gs y x → F y x = 0) :
    ∀ y x, ¬ inB gs y x → fireStep gs wl F y x = 0 := by
  intro y x hb
  unfold fireStep
  by_cases hs : 0 < gridSum gs F
  · rw [if_pos hs]
    rw [if_neg hb]
  · rw [if_neg hs]
    exact hout y x hb

theorem fireStep_mono (gs : ℕ) (wl : List (ℤ × ℤ)) (F : Grid)
    (h0 : ∀ y x, 0 ≤ F y x) (h1 : ∀ y x, F y x ≤ 1)
    (hw : ∀ p ∈ wl, F p.2 p.1 = 0) (hout : ∀ y x, ¬ inB gs y x → F y x = 0)
    (y x : ℤ) : F y x ≤ fireStep gs wl F y x := by
  unfold fireStep
  by_cases hs : 0 < gridSum gs F
  · rw [if_pos hs]
    split_ifs with hb hwc
    · exact le_of_eq (hw (x, y) hwc)
    · have hc : 0 ≤ convFire gs F y x := convFire_nonneg gs h0 y x
      unfold clampQ
      refine le_min (le_trans ?_ (le_max_left _ _)) (h1 y x)
      linarith
    · exact le_of_eq (hout y x hb)
  · rw [if_neg hs]

/-- Claim C3 (amended): in the macroscopic solver the fire update runs at
EVERY step (there is no freeze at the midpoint of the horizon — see
`C3_no_midpoint_freeze`); whenever the field is somewhere positive the
update is exactly `F ← clamp(F + 0.1·(K*F), 0, 1)` followed by `F(wall) = 0`
(and when the field is identically zero the code's skip coincides with that
formula), every entry stays in `[0, 1]`, wall cells stay 0, and every cell
is monotone non-decreasing at every step of the run — provided the initial
field lies in `[0, 1]` and vanishes on walls. -/
theorem C3_fire_run (gs : ℕ) (wl : List (ℤ × ℤ)) (F0 : Grid)
    (h0 : ∀ y x, 0 ≤ F0 y x) (h1 : ∀ y x, F0 y x ≤ 1)
    (hw : ∀ p ∈ wl, F0 p.2 p.1 = 0) (hout : ∀ y x, ¬ inB gs y x → F0 y x = 0) :
    (∀ t, fireStep gs wl (fireRun gs wl F0 t) = specFireUpdate gs wl (fireRun gs wl F0 t))
    ∧ (∀ t y x, 0 ≤ fireRun gs wl F0 t y x ∧ fireRun gs wl F0 t y x ≤ 1)
    ∧ (∀ t, ∀ p ∈ wl, fireRun gs wl F0 t p.2 p.1 = 0)
    ∧ (∀ t y x, fireRun gs wl F0 t y x ≤ fireRun gs wl F0 (t + 1) y x) := by
  have inv : ∀ t, (∀ y x, 0 ≤ fireRun gs wl F0 t y x)
      ∧ (∀ y x, fireRun gs wl F0 t y x ≤ 1)
      ∧ (∀ p ∈ wl, fireRun gs wl F0 t p.2 p.1 = 0)
      ∧ (∀ y x, ¬ inB gs y x → fireRun gs wl F0 t y x = 0) := by
    intro t
    induction t with
    | zero => exact ⟨h0, h1, hw, hout⟩
    | succ t ih =>
      obtain ⟨i0, i1, iw, io⟩ := ih
      exact ⟨fun y x => (fireStep_bounds gs wl _ i0 i1 y x).1,
        fun y x => (fireStep_bounds gs wl _ i0 i1 y x).2,
        fireStep_wall gs wl _ iw, fireStep_out gs wl _ io⟩
  refine ⟨fun t => fireStep_eq_spec gs wl _ (inv t).1 (inv t).2.2.2,
    fun t y x => ⟨(inv t).1 y x, (inv t).2.1 y x⟩,
    fun t => (inv t).2.2.1,
    fun t y x => fireStep_mono gs wl _ (inv t).1 (inv t).2.1 (inv t).2.2.1
      (inv t).2.2.2 y x⟩

/-- Witness for C3 at a concrete instance (zero field, empty wall list). -/
theorem C3_fire_run_witness :
    (∀ y x : ℤ, (0:ℚ) ≤ zeroGrid y x)
    ∧ fireStep 2 [] zeroGrid = specFireUpdate 2 [] zeroGrid
    ∧ (∀ y x : ℤ, zeroGrid 3 5 ≤ fireStep 2 [] zeroGrid y x) := by
  have h0 : ∀ y x : ℤ, (0:ℚ) ≤ zeroGrid y x := fun _ _ => le_refl 0
  have h1 : ∀ y x : ℤ, zeroGrid y x ≤ 1 := fun _ _ => by norm_num [zeroGrid]
  have hw : ∀ p ∈ ([] : List (ℤ × ℤ)), zeroGrid p.2 p.1 = 0 := by
    intro p hp
    exact absurd hp (List.not_mem_nil p)
  have hout : ∀ y x : ℤ, ¬ inB 2 y x → zeroGrid y x = 0 := fun _ _ _ => rfl
  obtain ⟨hs, _, _, hm⟩ := C3_fire_run 2 [] zeroGrid h0 h1 hw hout
  exact ⟨h0, hs 0, fun y x => hm 0 y x⟩

theorem toGrid_two_five : toGrid 2 5 = 0 := by
  norm_num [toGrid, pyInt]
  decide

theorem toGrid_two_ten : toGrid 2 10 = 1 := by
  norm_num [toGrid, pyInt]

theorem fireF0c_00 : fireF0c 0 0 = 1 := by
  unfold fireF0c fireInit
  rw [if_pos (by norm_num [inB])]
  simp only [List.foldl_cons, List.foldl_nil, fireHz, toGrid_two_five, toGrid_two_ten]
  norm_num [sqrtQ_zero]

theorem fireF0c_01 : fireF0c 0 1 = 0 := by
  unfold fireF0c fireInit
  rw [if_pos (by norm_num [inB])]
  simp only [List.foldl_cons, List.foldl_nil, fireHz, toGrid_two_five, toGrid_two_ten]
  norm_num

theorem fireF0c_10 : fireF0c 1 0 = 0 := by
  unfold fireF0c fireInit
  rw [if_pos (by norm_num [inB])]
  simp only [List.foldl_cons, List.foldl_nil, fireHz, toGrid_two_five, toGrid_two_ten]
  norm_num

theorem fireF0c_11 : fireF0c 1 1 = 0 := by
  unfold fireF0c fireInit
  rw [if_pos (by norm_num [inB])]
  simp only [List.foldl_cons, List.foldl_nil, fireHz, toGrid_two_five, toGrid_two_ten]
  norm_num

theorem fireStep_eval (gs : ℕ) (wl : List (ℤ × ℤ)) (F : Grid)
    (hsum : 0 < gridSum gs F) (y x : ℤ) (hb : inB gs y x) (hnw : (x, y) ∉ wl) :
    fireStep gs wl F y x = clampQ (F y x + (1/10) * convFire gs F y x) 0 1 := by
  unfold fireStep
  rw [if_pos hsum]
  show (if inB gs y x then
      if (x, y) ∈ wl then (0:ℚ)
      else clampQ (F y x + (1/10) * convFire gs F y x) 0 1
    else 0) = _
  rw [if_pos hb, if_neg hnw]

theorem convFire_two_00 (F : Grid) :
    convFire 2 F 0 0 = (1/5) * F 0 1 + (1/5) * F 1 0 + (1/20) * F 1 1 := by
  unfold convFire
  norm_num [inB]

theorem convFire_two_01 (F : Grid) :
    convFire 2 F 0 1 = (1/5) * F 0 0 + (1/20) * F 1 0 + (1/5) * F 1 1 := by
  unfold convFire
  norm_num [inB]

theorem convFire_two_10 (F : Grid) :
    convFire 2 F 1 0 = (1/5) * F 0 0 + (1/20) * F 0 1 + (1/5) * F 1 1 := by
  unfold convFire
  norm_num [inB]

theorem convFire_two_11 (F : Grid) :
    convFire 2 F 1 1 = (1/20) * F 0 0 + (1/5) * F 0 1 + (1/5) * F 1 0 := by
  unfold convFire
  norm_num [inB]

/-- Counterexample to C3 as stated: with one fire hazard (scenario `fireHz`,
grid 2) and horizon `T = 4`, the claim says the fire field is frozen from
step `T/2 = 2` on; but the recorded fields at steps 2 and 3 differ at cell
`(1, 1)` — `_solve_pde_finite_difference` has no midpoint test and keeps
spreading the fire at every step. -/
theorem C3_no_midpoint_freeze :
    fireRun 2 [] fireF0c 3 1 1 ≠ fireRun 2 [] fireF0c 2 1 1 := by
  have hsum0 : 0 < gridSum 2 fireF0c := by
    rw [gridSum_two, fireF0c_00, fireF0c_01, fireF0c_10, fireF0c_11]
    norm_num
  have h1eq : fireRun 2 [] fireF0c 1 = fireStep 2 [] fireF0c := rfl
  have f1_00 : fireRun 2 [] fireF0c 1 0 0 = 1 := by
    rw [h1eq, fireStep_eval 2 [] fireF0c hsum0 0 0 (by norm_num [inB]) (List.not_mem_nil _),
      convFire_two_00, fireF0c_00, fireF0c_01, fireF0c_10, fireF0c_11]
    norm_num [clampQ]
  have f1_01 : fireRun 2 [] fireF0c 1 0 1 = 1/50 := by
    rw [h1eq, fireStep_eval 2 [] fireF0c hsum0 0 1 (by norm_num [inB]) (List.not_mem_nil _),
      convFire_two_01, fireF0c_00, fireF0c_01, fireF0c_10, fireF0c_11]
    norm_num [clampQ]
  have f1_10 : fireRun 2 [] fireF0c 1 1 0 = 1/50 := by
    rw [h1eq, fireStep_eval 2 [] fireF0c hsum0 1 0 (by norm_num [inB]) (List.not_mem_nil _),
      convFire_two_10, fireF0c_00, fireF0c_01, fireF0c_10, fireF0c_11]
    norm_num [clampQ]
  have f1_11 : fireRun 2 [] fireF0c 1 1 1 = 1/200 := by
    rw [h1eq, fireStep_eval 2 [] fireF0c hsum0 1 1 (by norm_num [inB]) (List.not_mem_nil _),
      convFire_two_11, fireF0c_00, fireF0c_01, fireF0c_10, fireF0c_11]
    norm_num [clampQ]
  have hsum1 : 0 < gridSum 2 (fireRun 2 [] fireF0c 1) := by
    rw [gridSum_two, f1_00, f1_01, f1_10, f1_11]
    norm_num
  have h2eq : fireRun 2 [] fireF0c 2 = fireStep 2 [] (fireRun 2 [] fireF0c 1) := rfl
  have f2_00 : fireRun 2 [] fireF0c 2 0 0 = 1 := by
    rw [h2eq, fireStep_eval 2 [] _ hsum1 0 0 (by norm_num [inB]) (List.not_mem_nil _),
      convFire_two_00, f1_00, f1_01, f1_10, f1_11]
    norm_num [clampQ]
  have f2_01 : fireRun 2 [] fireF0c 2 0 1 = 201/5000 := by
    rw [h2eq, fireStep_eval 2 [] _ hsum1 0 1 (by norm_num [inB]) (List.not_mem_nil _),
      convFire_two_01, f1_00, f1_01, f1_10, f1_11]
    norm_num [clampQ]
  have f2_10 : fireRun 2 [] fireF0c 2 1 0 = 201/5000 := by
    rw [h2eq, fireStep_eval 2 [] _ hsum1 1 0 (by norm_num [inB]) (List.not_mem_nil _),
      convFire_two_10, f1_00, f1_01, f1_10, f1_11]
    norm_num [clampQ]
  have f2_11 : fireRun 2 [] fireF0c 2 1 1 = 27/2500 := by
    rw [h2eq, fireStep_eval 2 [] _ hsum1 1 1 (by norm_num [inB]) (List.not_mem_nil _),
      convFire_two_11, f1_00, f1_01, f1_10, f1_11]
    norm_num [clampQ]
  have hsum2 : 0 < gridSum 2 (fireRun 2 [] fireF0c 2) := by
    rw [gridSum_two, f2_00, f2_01, f2_10, f2_11]
    norm_num
  have h3eq : fireRun 2 [] fireF0c 3 = fireStep 2 [] (fireRun 2 [] fireF0c 2) := rfl
  have f3_11 : fireRun 2 [] fireF0c 3 1 1 = 1088/62500 := by
    rw [h3eq, fireStep_eval 2 [] _ hsum2 1 1 (by norm_num [inB]) (List.not_mem_nil _),
      convFire_two_11, f2_00, f2_01, f2_10, f2_11]
    norm_num [clampQ]
  rw [f3_11, f2_11]
  norm_num

/-- Claim C4: every macroscopic density update equals the spec's formula
`ρ ← max(0, ρ − dt·div(vρ) − dt·γ·E·ρ − dt·λ_f·F·ρ + dt·D·∇²ρ)` followed by
`ρ(wall) = 0`, with the recorded evacuated count `Σ dt·γ·E·ρ` computed from
the pre-update (pre-clamp) density; consequently the updated density is
non-negative everywhere and zero on every wall cell.  Stated for arbitrary
velocity, fire, exit and density fields, which covers every step of every
run. -/
theorem C4_macro_density_update (gs : ℕ) (wl : List (ℤ × ℤ)) (vx vy F E rho : Grid) :
    macroDensityStep gs wl vx vy F E rho = specMacroUpdate gs wl vx vy F E rho
    ∧ (∀ y x, 0 ≤ (macroDensityStep gs wl vx vy F E rho).1 y x)
    ∧ (∀ p ∈ wl, (macroDensityStep gs wl vx vy F E rho).1 p.2 p.1 = 0) := by
  refine ⟨?_, ?_, ?_⟩
  · unfold macroDensityStep specMacroUpdate
    refine Prod.ext ?_ ?_
    · funext y x
      dsimp only
      by_cases hb : inB gs y x
      · rw [if_pos hb, if_pos hb]
        by_cases hwc : (x, y) ∈ wl
        · rw [if_pos hwc, if_pos hwc]
        · rw [if_neg hwc, if_neg hwc, max_comm]
          congr 1
          unfold evacTerm hazEffect fluxG
          ring
      · rw [if_neg hb, if_neg hb]
    · dsimp only
      unfold gridSum
      refine Finset.sum_congr rfl fun p _ => ?_
      unfold evacTerm
      ring
  · intro y x
    unfold macroDensityStep
    dsimp only
    split_ifs
    · exact le_refl 0
    · exact le_max_right _ _
    · exact le_refl 0
  · intro p hp
    unfold macroDensityStep
    dsimp only
    by_cases hb : inB gs p.2 p.1
    · rw [if_pos hb, if_pos (by simpa using hp)]
    · rw [if_neg hb]

/-! ### Mock Oracle lemmas (C9) -/

theorem mockMicroSafe_mono (n T : ℕ) (hT : 0 < T) {t t' : ℕ} (h : t ≤ t') :
    mockMicroSafe n T t ≤ mockMicroSafe n T t' := by
  unfold mockMicroSafe
  apply Int.floor_le_floor
  have hTQ : (0:ℚ) < (T:ℚ) := by exact_mod_cast hT
  gcongr

theorem mockMicroSafe_final_le (n T : ℕ) (hT : 0 < T) :
    (mockMicroSafe n T (T - 1) : ℚ) ≤ (9/10) * (n:ℚ) := by
  unfold mockMicroSafe
  have hTQ : (0:ℚ) < (T:ℚ) := by exact_mod_cast hT
  have h1 : ((T - 1 : ℕ):ℚ) / (T:ℚ) ≤ 1 := by
    rw [div_le_one hTQ]
    exact_mod_cast Nat.sub_le T 1
  have h0 : (0:ℚ) ≤ ((T - 1 : ℕ):ℚ) / (T:ℚ) := by positivity
  calc ((⌊(n : ℚ) * (((T - 1 : ℕ):ℚ) / (T:ℚ)) ^ 2 * (9/10)⌋ : ℤ) : ℚ)
      ≤ (n : ℚ) * (((T - 1 : ℕ):ℚ) / (T:ℚ)) ^ 2 * (9/10) := Int.floor_le _
    _ ≤ (n : ℚ) * 1 * (9/10) := by
        gcongr
        exact pow_le_one₀ h0 h1
    _ = (9/10) * (n:ℚ) := by ring

theorem mockMacroEvac_mono (rpow : ℚ → ℚ) (T : ℕ) (hT : 0 < T)
    (hmono : ∀ a b : ℚ, 0 ≤ a → a ≤ b → rpow a ≤ rpow b)
    (hpos : ∀ a : ℚ, 0 ≤ a → 0 ≤ rpow a) {t t' : ℕ} (h : t ≤ t') :
    mockMacroEvac rpow T t ≤ mockMacroEvac rpow T t' := by
  unfold mockMacroEvac
  dsimp only
  have hTc : (0:ℚ) < ((min T 120 : ℕ) : ℚ) := by
    exact_mod_cast lt_min hT (by norm_num : (0:ℕ) < 120)
  by_cases h0 : t = 0
  · rw [if_pos h0]
    by_cases h0' : t' = 0
    · rw [if_pos h0']
    · rw [if_neg h0']
      have hr : 0 ≤ rpow ((t':ℚ) / ((min T 120 : ℕ) : ℚ)) := hpos _ (by positivity)
      linarith
  · rw [if_neg h0, if_neg (by omega : ¬ t' = 0)]
    have hr : rpow ((t:ℚ) / ((min T 120 : ℕ) : ℚ))
        ≤ rpow ((t':ℚ) / ((min T 120 : ℕ) : ℚ)) := by
      refine hmono _ _ (by positivity) ?_
      gcongr
    linarith

/-- Claim C9 (amended): the micro mock's `safe_agents` series is monotone
non-decreasing and its final value is bounded by `0.9 · num_agents`; the
macro mock's `evacuated_count` series is monotone non-decreasing for any
monotone non-negative model of `x ↦ x ** 0.8` — but its magnitude is the
fixed constant `500`-scale curve, unrelated to the initial mass, so the
`0.9 · initial_mass + ε` bound of the claim FAILS for the macro mock
(`C9_macro_mock_violates_bound`). -/
theorem C9_mock_series (n T T' : ℕ) (rpow : ℚ → ℚ) (hT : 0 < T) (hT' : 0 < T')
    (hmono : ∀ a b : ℚ, 0 ≤ a → a ≤ b → rpow a ≤ rpow b)
    (hpos : ∀ a : ℚ, 0 ≤ a → 0 ≤ rpow a) :
    (∀ t t', t ≤ t' → mockMicroSafe n T t ≤ mockMicroSafe n T t')
    ∧ ((mockMicroSafe n T (T - 1) : ℚ) ≤ (9/10) * (n:ℚ))
    ∧ (∀ t t', t ≤ t' → mockMacroEvac rpow T' t ≤ mockMacroEvac rpow T' t') :=
  ⟨fun _ _ h => mockMicroSafe_mono n T hT h,
   mockMicroSafe_final_le n T hT,
   fun _ _ h => mockMacroEvac_mono rpow T' hT' hmono hpos h⟩

/-- Witness for C9 at a concrete instance (`T = 2`, the identity as the
stand-in for `x ** 0.8`). -/
theorem C9_mock_series_witness :
    (0 < 2) ∧ mockMicroSafe 5 2 0 ≤ mockMicroSafe 5 2 1
    ∧ ((mockMicroSafe 5 2 (2 - 1) : ℚ) ≤ (9/10) * (5:ℚ))
    ∧ mockMacroEvac idQ 2 0 ≤ mockMacroEvac idQ 2 1 := by
  obtain ⟨hm, hb, hmm⟩ := C9_mock_series 5 2 2 idQ (by norm_num) (by norm_num)
    (fun a b _ hab => hab) (fun a ha => ha)
  exact ⟨by norm_num, hm 0 1 (by norm_num), hb, hmm 0 1 (by norm_num)⟩

theorem natSqrt_five : Nat.sqrt 5 = 2 := by
  have h1 : 2 ≤ Nat.sqrt 5 := Nat.le_sqrt.mpr (by norm_num)
  have h2 : Nat.sqrt 5 < 3 := Nat.sqrt_lt.mpr (by norm_num)
  omega

theorem natSqrt_eight : Nat.sqrt 8 = 2 := by
  have h1 : 2 ≤ Nat.sqrt 8 := Nat.le_sqrt.mpr (by norm_num)
  have h2 : Nat.sqrt 8 < 3 := Nat.sqrt_lt.mpr (by norm_num)
  omega

theorem sqrtQ_four : sqrtQ 4 = 2 := by
  have ht : ((4:ℚ).num.toNat * (4:ℚ).den) = 4 := rfl
  have hden : ((4:ℚ).den : ℚ) = 1 := rfl
  have h4 : Nat.sqrt 4 = 2 := by
    have h1 : 2 ≤ Nat.sqrt 4 := Nat.le_sqrt.mpr (by norm_num)
    have h2 : Nat.sqrt 4 < 3 := Nat.sqrt_lt.mpr (by norm_num)
    omega
  rw [sqrtQ, ht, h4, hden]
  norm_num

theorem sqrtQ_five : sqrtQ 5 = 2 := by
  have ht : ((5:ℚ).num.toNat * (5:ℚ).den) = 5 := rfl
  have hden : ((5:ℚ).den : ℚ) = 1 := rfl
  rw [sqrtQ, ht, natSqrt_five, hden]
  norm_num

theorem sqrtQ_eight : sqrtQ 8 = 2 := by
  have ht : ((8:ℚ).num.toNat * (8:ℚ).den) = 8 := rfl
  have hden : ((8:ℚ).den : ℚ) = 1 := rfl
  rw [sqrtQ, ht, natSqrt_eight, hden]
  norm_num

theorem mockMacroInitMass_four : mockMacroInitMass rexpQ sqrtQ 4 = 1 := by
  unfold mockMacroInitMass gridSum
  have hmin : min 4 150 = 4 := by norm_num
  rw [hmin]
  rw [Finset.sum_eq_single ((2:ℤ), (2:ℤ))]
  · norm_num [mockMacroDensity0, inB, sqrtQ_zero, rexpQ]
  · intro p hp hne
    have hb := mem_gridCells.mp hp
    obtain ⟨y, x⟩ := p
    obtain ⟨hy0, hy1, hx0, hx1⟩ := hb
    simp only at hy1 hx1
    interval_cases y <;> interval_cases x <;>
      first
        | exact absurd rfl hne
        | norm_num [mockMacroDensity0, inB, sqrtQ_zero, sqrtQ_one, sqrtQ_two,
            sqrtQ_four, sqrtQ_five, sqrtQ_eight, rexpQ]
  · intro hne
    exact absurd (mem_gridCells.mpr (by norm_num [inB])) hne

/-- Counterexample to C9 as stated: for the macro mock at grid resolution 4
and `T = 2`, the final `evacuated_count` (`500 · (1/2) ** 0.8`, here with the
identity standing in for `x ** 0.8`, an UNDER-estimate since `x ≤ x^0.8` on
`[0,1]`) is `250`, while `0.9 · initial_mass + 1 = 1.9`: the mock's
evacuated series is a hard-coded 500-scale curve unrelated to the initial
mass. -/
theorem C9_macro_mock_violates_bound :
    (9/10) * mockMacroInitMass rexpQ sqrtQ 4 + 1 < mockMacroEvac idQ 2 1 := by
  rw [mockMacroInitMass_four]
  norm_num [mockMacroEvac, idQ]

/-! ### RL environment lemmas -/

theorem gridSum_bumpCh (gs : ℕ) (g : Grid) (p : ℤ × ℤ) (hb : inB gs p.2 p.1) :
    gridSum gs (bumpCh g p) = gridSum gs g + 1 := by
  unfold gridSum bumpCh
  have h1 : ∀ q ∈ gridCells gs,
      (if q.1 = p.2 ∧ q.2 = p.1 then g q.1 q.2 + 1 else g q.1 q.2)
        = g q.1 q.2 + (if q = (p.2, p.1) then (1:ℚ) else 0) := by
    intro q _
    by_cases h : q = (p.2, p.1)
    · subst h
      simp
    · rw [if_neg h, if_neg, add_zero]
      intro hc
      exact h (Prod.ext hc.1 hc.2)
  rw [Finset.sum_congr rfl h1, Finset.sum_add_distrib,
    Finset.sum_ite_eq' (gridCells gs) ((p.2, p.1) : ℤ × ℤ) (fun _ => (1:ℚ)),
    if_pos (mem_gridCells.mpr hb)]

theorem placeLoop_none (gs : ℕ) (wall haz : Grid) (n : ℕ)
    (draws : ℕ → Fin gs × Fin gs)
    (hnv : ∀ y x : ℤ, ¬ validStart wall haz y x) :
    ∀ fuel i count acc g, count < n →
      placeLoop gs wall haz n draws fuel i count acc g = none := by
  intro fuel
  induction fuel with
  | zero =>
    intro i count acc g hc
    unfold placeLoop
    rw [if_pos hc]
  | succ fuel ih =>
    intro i count acc g hc
    unfold placeLoop
    rw [if_pos hc]
    dsimp only
    rw [if_neg (hnv _ _)]
    exact ih _ _ _ _ hc

theorem placeLoop_some_spec (gs : ℕ) (wall haz : Grid) (n : ℕ)
    (draws : ℕ → Fin gs × Fin gs) :
    ∀ fuel i count acc g l g',
      count ≤ n → acc.length = count →
      (∀ p ∈ acc, validStart wall haz p.2 p.1) →
      placeLoop gs wall haz n draws fuel i count acc g = some (l, g') →
      l.length = n ∧ (∀ p ∈ l, validStart wall haz p.2 p.1)
      ∧ gridSum gs g' = gridSum gs g + ((n - count : ℕ) : ℚ) := by
  intro fuel
  induction fuel with
  | zero =>
    intro i count acc g l g' hle hlen hval heq
    unfold placeLoop at heq
    by_cases hc : count < n
    · rw [if_pos hc] at heq
      exact absurd heq (by simp)
    · rw [if_neg hc] at heq
      have hcn : count = n := le_antisymm hle (not_lt.mp hc)
      injection heq with h
      injection h with h1 h2
      subst h1
      subst h2
      refine ⟨by omega, hval, ?_⟩
      have hz : (n - count : ℕ) = 0 := by omega
      rw [hz]
      norm_num
  | succ fuel ih =>
    intro i count acc g l g' hle hlen hval heq
    unfold placeLoop at heq
    by_cases hc : count < n
    · rw [if_pos hc] at heq
      dsimp only at heq
      by_cases hv : validStart wall haz ((((draws i).2 : ℕ)) : ℤ) ((((draws i).1 : ℕ)) : ℤ)
      · rw [if_pos hv] at heq
        have hacc : ∀ p ∈ acc ++ [(((((draws i).1 : ℕ)) : ℤ), ((((draws i).2 : ℕ)) : ℤ))],
            validStart wall haz p.2 p.1 := by
          intro p hp
          rcases List.mem_append.mp hp with hmem | hmem
          · exact hval p hmem
          · rw [List.mem_singleton] at hmem
            subst hmem
            exact hv
        obtain ⟨h1, h2, h3⟩ := ih _ _ _ _ _ _ (by omega) (by simp [hlen]) hacc heq
        refine ⟨h1, h2, ?_⟩
        have hy : ((((draws i).2 : ℕ)) : ℤ) < (gs : ℤ) := by
          exact_mod_cast (draws i).2.isLt
        have hx : ((((draws i).1 : ℕ)) : ℤ) < (gs : ℤ) := by
          exact_mod_cast (draws i).1.isLt
        have hbb : inB gs ((((draws i).2 : ℕ)) : ℤ) ((((draws i).1 : ℕ)) : ℤ) :=
          ⟨Int.ofNat_nonneg _, hy, Int.ofNat_nonneg _, hx⟩
        rw [h3, gridSum_bumpCh gs g _ hbb]
        have harith : (n - count : ℕ) = (n - (count + 1) : ℕ) + 1 := by omega
        rw [harith]
        push_cast
        ring
      · rw [if_neg hv] at heq
        exact ih _ _ _ _ _ _ hle hlen hval heq
    · rw [if_neg hc] at heq
      have hcn : count = n := le_antisymm hle (not_lt.mp hc)
      injection heq with h
      injection h with h1 h2
      subst h1
      subst h2
      refine ⟨by omega, hval, ?_⟩
      have hz : (n - count : ℕ) = 0 := by omega
      rw [hz]
      norm_num

/-- Claim C10 (amended with `num_agents ≥ 1`; for `num_agents = 0` the
placement loop body never runs and `reset` terminates even with no valid
cell, see `C10_zero_agents_terminates`): when no grid cell has wall channel
0 and hazard channel below 0.5, the rejection-sampling loop of `reset` never
terminates (diverges for every fuel bound); and whenever `reset` returns, it
has placed exactly `num_agents` agents, all on valid cells, with all
statuses 0, step counter 0, `_previous_evacuated = 0`, and the agent-density
channel summing to `num_agents`. -/
theorem C10_rl_reset (gs n : ℕ) (exits : List (ℚ × ℚ)) (hazards : List Hazard)
    (wall haz : Grid) (draws : ℕ → Fin gs × Fin gs) (hn : 1 ≤ n) :
    ((∀ y x : ℤ, ¬ validStart wall haz y x) →
      ∀ fuel, rlReset gs n exits hazards wall haz draws fuel = none)
    ∧ (∀ fuel st, rlReset gs n exits hazards wall haz draws fuel = some st →
        st.positions.length = n
        ∧ (∀ p ∈ st.positions, validStart wall haz p.2 p.1)
        ∧ st.status = List.replicate n false
        ∧ st.timeStep = 0
        ∧ st.prevEvac = 0
        ∧ gridSum gs st.agentCh = (n : ℚ)) := by
  constructor
  · intro hnv fuel
    unfold rlReset
    rw [placeLoop_none gs wall haz n draws hnv fuel 0 0 [] _ (by omega)]
    rfl
  · intro fuel st heq
    unfold rlReset at heq
    cases hpl : placeLoop gs wall haz n draws fuel 0 0 [] (fun _ _ => 0) with
    | none =>
      rw [hpl] at heq
      exact absurd heq (by simp)
    | some r =>
      rw [hpl] at heq
      obtain ⟨h1, h2, h3⟩ := placeLoop_some_spec gs wall haz n draws fuel 0 0 []
        (fun _ _ => 0) r.1 r.2 (Nat.zero_le n) rfl (by intro p hp; cases hp) (by rw [hpl])
      have hst : st = ⟨gs, n, exits, hazards, wall, haz, r.2, r.1,
          List.replicate n false, 0, 0⟩ := by
        simp only [Option.map_some'] at heq
        exact (Option.some.inj heq).symm
      subst hst
      refine ⟨h1, h2, rfl, rfl, rfl, ?_⟩
      have hzero : gridSum gs (fun _ _ => (0:ℚ)) = 0 := by
        unfold gridSum
        exact Finset.sum_const_zero
      rw [h3, hzero]
      norm_num

/-- Witness for C10: on the all-wall 1×1 grid, one agent, five units of
fuel, `reset` indeed fails to terminate. -/
theorem C10_rl_reset_witness :
    (1 ≤ 1)
    ∧ rlReset 1 1 [] [] wallFullGrid zeroGrid draws1 5 = none := by
  refine ⟨le_refl 1, ?_⟩
  refine (C10_rl_reset 1 1 [] [] wallFullGrid zeroGrid draws1 (le_refl 1)).1 ?_ 5
  intro y x hv
  exact absurd hv.1 (by norm_num [wallFullGrid])

/-- Counterexample to C10 as stated: with `num_agents = 0` the placement
loop terminates immediately — with zero fuel, on a grid with NO valid cell —
so "terminates only if at least one valid cell exists" fails without the
`num_agents ≥ 1` proviso. -/
theorem C10_zero_agents_terminates :
    (∀ y x : ℤ, ¬ validStart wallFullGrid zeroGrid y x)
    ∧ rlReset 1 0 [] [] wallFullGrid zeroGrid draws1 0 ≠ none := by
  constructor
  · intro y x hv
    exact absurd hv.1 (by norm_num [wallFullGrid])
  · unfold rlReset placeLoop
    simp

/-! ### RL `step`: value lemmas for the concrete scenarios -/

theorem sqrtQ_sq (q : ℚ) (hq : 0 ≤ q) : sqrtQ (q * q) = q := by
  have hnum : (q * q).num = q.num * q.num := Rat.mul_self_num q
  have hden : (q * q).den = q.den * q.den := Rat.mul_self_den q
  have htn : (q.num * q.num).toNat = q.num.natAbs * q.num.natAbs := by
    rw [← Int.natAbs_mul_self]
    exact Int.toNat_ofNat _
  have hkey : (q * q).num.toNat * (q * q).den
      = (q.num.natAbs * q.den) * (q.num.natAbs * q.den) := by
    rw [hnum, hden, htn]; ring
  rw [sqrtQ, hkey, Nat.sqrt_eq, hden]
  have h0 : (0:ℤ) ≤ q.num := Rat.num_nonneg.mpr hq
  have hnat : ((q.num.natAbs : ℕ) : ℚ) = ((q.num : ℤ) : ℚ) := by
    rw [Int.cast_natAbs]
    exact_mod_cast congrArg (fun z : ℤ => (z : ℚ)) (abs_of_nonneg h0)
  have hd : ((q.den : ℕ) : ℚ) ≠ 0 := Nat.cast_ne_zero.mpr q.den_nz
  push_cast
  rw [hnat, mul_div_assoc, mul_comm ((q.den : ℕ) : ℚ), ← div_div,
    div_self hd, ← mul_div_assoc, mul_one, Rat.num_div_den]

theorem sqrtQ_hundred : sqrtQ 100 = 10 := by
  have h : (100 : ℚ) = 10 * 10 := by norm_num
  rw [h, sqrtQ_sq 10 (by norm_num)]

theorem sqrtQ_c7mag : sqrtQ (36/25) = 6/5 := by
  have h : (36/25 : ℚ) = (6/5) * (6/5) := by norm_num
  rw [h, sqrtQ_sq (6/5) (by norm_num)]

theorem toGrid_twenty_zero : toGrid 20 0 = 0 := by
  norm_num [toGrid, pyInt]

theorem toGrid_twenty_ten : toGrid 20 10 = 10 := by
  norm_num [toGrid, pyInt]

theorem sqrtQ_eightyone : sqrtQ 81 = 9 := by
  have h : (81 : ℚ) = 9 * 9 := by norm_num
  rw [h, sqrtQ_sq 9 (by norm_num)]

/-- The closest-exit scan from cell `(1, 0)` with the single exit at world
`(10, 0)` on the 20-grid: exit cell `(10, 0)`, distance `9`. -/
theorem exitScan10 :
    closestExitScan sqrtQ 20 [((10:ℚ), (0:ℚ))] 1 0 = some (0, (10, 0), 9) := by
  unfold closestExitScan
  simp only [List.enum, List.enumFrom, List.foldl_cons, List.foldl_nil]
  rw [toGrid_twenty_ten, toGrid_twenty_zero]
  norm_num [sqrtQ_eightyone]

theorem giniQ_one : giniQ [(1:ℚ)] = 0 := by
  unfold giniQ
  norm_num [List.all, List.mergeSort, List.enum, List.enumFrom,
    List.foldl_cons, List.foldl_nil]

theorem c6_haz (g : Grid) :
    hazPenaltyOf ⟨20, 1, [(10, 0)], [], zeroGrid, zeroGrid, g,
      [(1, 0)], [true], 1, 6⟩ = 0 := by
  simp [hazPenaltyOf]

theorem c6_fair (g : Grid) :
    fairnessBonusOf sqrtQ ⟨20, 1, [(10, 0)], [], zeroGrid, zeroGrid, g,
      [(1, 0)], [true], 1, 6⟩ = 1/2 := by
  have husage : exitUsage sqrtQ (⟨20, 1, [(10, 0)], [], zeroGrid, zeroGrid, g,
      [(1, 0)], [true], 1, 6⟩ : RLState) = [1] := by
    simp [exitUsage, exitScan10]
  simp only [fairnessBonusOf, husage, statusSum]
  norm_num [giniQ_one]

/-- Claim C6 (amended): calling `step()` in a terminal state (all agents
evacuated) is NOT an error — there is no terminal-state check.  The call
runs like any other step: every agent keeps its position and its evacuated
status, the clock advances, and `done = true` is returned again. -/
theorem C6_step_in_terminal (rsqrt : ℚ → ℚ) (st : RLState) (a : Fin 8)
    (hall : ∀ b ∈ st.status, b = true)
    (hlen : st.positions.length = st.status.length)
    (hN : st.status.length = st.numAgents) :
    (rlStep rsqrt st a).1.positions = st.positions ∧
    (rlStep rsqrt st a).1.status = st.status ∧
    (rlStep rsqrt st a).1.timeStep = st.timeStep + 1 ∧
    (rlStep rsqrt st a).2.2.1 = true := by
  have hml : ((st.positions.zip st.status).map fun ps =>
      if ps.2 then (ps.1, true)
      else ((rlMoveAgent rsqrt st a ps.1).1, (rlMoveAgent rsqrt st a ps.1).2))
      = st.positions.zip st.status := by
    have hid : ((st.positions.zip st.status).map fun ps =>
        if ps.2 then (ps.1, true)
        else ((rlMoveAgent rsqrt st a ps.1).1, (rlMoveAgent rsqrt st a ps.1).2))
        = (st.positions.zip st.status).map id := by
      apply List.map_congr_left
      intro ps hps
      have h2 : ps.2 = true := hall ps.2 (List.of_mem_zip hps).2
      rw [if_pos h2]
      exact Prod.ext rfl h2.symm
    rw [hid, List.map_id]
  have hcount : st.status.count true = st.numAgents := by
    rw [List.count_eq_length.mpr (fun b hb => (hall b hb).symm)]
    exact hN
  refine ⟨?_, ?_, ?_, ?_⟩
  · show ((st.positions.zip st.status).map fun ps =>
        if ps.2 then (ps.1, true)
        else ((rlMoveAgent rsqrt st a ps.1).1,
          (rlMoveAgent rsqrt st a ps.1).2)).map Prod.fst = st.positions
    rw [hml]
    exact List.map_fst_zip _ _ (le_of_eq hlen)
  · show ((st.positions.zip st.status).map fun ps =>
        if ps.2 then (ps.1, true)
        else ((rlMoveAgent rsqrt st a ps.1).1,
          (rlMoveAgent rsqrt st a ps.1).2)).map Prod.snd = st.status
    rw [hml]
    exact List.map_snd_zip _ _ (le_of_eq hlen.symm)
  · rfl
  · show decide ((((st.positions.zip st.status).map fun ps =>
        if ps.2 then (ps.1, true)
        else ((rlMoveAgent rsqrt st a ps.1).1,
          (rlMoveAgent rsqrt st a ps.1).2)).map Prod.snd).count true
        = st.numAgents ∨ 1000 ≤ st.timeStep) = true
    rw [hml, List.map_snd_zip _ _ (le_of_eq hlen.symm), hcount]
    simp

/-- Witness for C6 at the concrete terminal state `c6State` (one agent,
already evacuated, clock at 5). -/
theorem C6_step_in_terminal_witness :
    (rlStep sqrtQ c6State 0).1.positions = c6State.positions ∧
    (rlStep sqrtQ c6State 0).1.status = c6State.status ∧
    (rlStep sqrtQ c6State 0).1.timeStep = c6State.timeStep + 1 ∧
    (rlStep sqrtQ c6State 0).2.2.1 = true :=
  C6_step_in_terminal sqrtQ c6State 0 (by decide) rfl rfl

/-- Counterexample to C6 as stated: in the terminal state `c6State` the call
`step(0)` does not raise — it returns a perfectly ordinary tuple (and even a
positive reward, from the fairness bonus). -/
theorem C6_terminal_step_silently_succeeds :
    rlStep sqrtQ c6State 0 = (c6Post, 1/2, true, (1, 0, 6)) := by
  have hgs : c6State.gs = 20 := rfl
  have hna : c6State.numAgents = 1 := rfl
  have hex : c6State.exits = [((10:ℚ), (0:ℚ))] := rfl
  have hhz : c6State.hazards = [] := rfl
  have hwc : c6State.wallCh = zeroGrid := rfl
  have hhc : c6State.hazCh = zeroGrid := rfl
  have hp : c6State.positions = [((1:ℤ), (0:ℤ))] := rfl
  have hs : c6State.status = [true] := rfl
  have hpe : c6State.prevEvac = 1 := rfl
  have hts : c6State.timeStep = 5 := rfl
  simp only [rlStep, hgs, hna, hex, hhz, hwc, hhc, hp, hs, hpe, hts]
  norm_num [List.zip_cons_cons, List.zip_nil_right, List.map_cons, List.map_nil,
    List.foldl_cons, List.foldl_nil, List.count_cons, List.count_nil,
    c6_fair, c6_haz, c6Post, zeroGrid]
  rfl

theorem roundQ_two : roundQ 2 = 2 := by
  norm_num [roundQ]

theorem c7Move : rlMoveAgent sqrtQ c7State 2 ((1:ℤ), (0:ℤ)) = ((2, 0), false) := by
  have hgs : c7State.gs = 20 := rfl
  have hex : c7State.exits = [((10:ℚ), (0:ℚ))] := rfl
  have hhz : c7State.hazards = [] := rfl
  have hwc : c7State.wallCh = zeroGrid := rfl
  have hd : rlDirs 2 = ((1:ℤ), (0:ℤ)) := rfl
  have hmax9 : max (9:ℚ) (1/10) = 9 := max_eq_left (by norm_num)
  simp only [rlMoveAgent, hgs, hex, hhz, hwc, hd]
  rw [exitScan10]
  norm_num [List.foldl_nil, hmax9, sqrtQ_c7mag, roundQ, zeroGrid,
    toGrid_twenty_ten, toGrid_twenty_zero]

theorem c7_haz (g : Grid) :
    hazPenaltyOf ⟨20, 1, [(10, 0)], [], zeroGrid, zeroGrid, g,
      [(2, 0)], [false], 0, 1⟩ = 0 := by
  simp [hazPenaltyOf, zeroGrid]

theorem c7_fair (g : Grid) :
    fairnessBonusOf sqrtQ ⟨20, 1, [(10, 0)], [], zeroGrid, zeroGrid, g,
      [(2, 0)], [false], 0, 1⟩ = 0 := by
  simp [fairnessBonusOf, statusSum]

theorem c7_step_eq :
    rlStep sqrtQ c7State 2 = (c7Post, 0, false, (0, 0, 1)) := by
  have hgs : c7State.gs = 20 := rfl
  have hna : c7State.numAgents = 1 := rfl
  have hex : c7State.exits = [((10:ℚ), (0:ℚ))] := rfl
  have hhz : c7State.hazards = [] := rfl
  have hwc : c7State.wallCh = zeroGrid := rfl
  have hhc : c7State.hazCh = zeroGrid := rfl
  have hp : c7State.positions = [((1:ℤ), (0:ℤ))] := rfl
  have hs : c7State.status = [false] := rfl
  have hpe : c7State.prevEvac = 0 := rfl
  have hts : c7State.timeStep = 0 := rfl
  simp only [rlStep, hgs, hna, hex, hhz, hwc, hhc, hp, hs, hpe, hts]
  norm_num [List.zip_cons_cons, List.zip_nil_right, List.map_cons, List.map_nil,
    List.foldl_cons, List.foldl_nil, List.count_cons, List.count_nil,
    c7Move, c7_fair, c7_haz, c7Post]
  rfl

/-- Claim C7 (amended): whenever the `_previous_evacuated` tracker agrees
with the current evacuated count (as it does on every reachable state), the
step reward is `10·(newly evacuated) − 2·(hazard intensity summed over the
active agents) + fairness`, where the fairness term is the spec's
`max(0, 0.1 − G)·5` ONLY when there is at least one exit, at least one
evacuated agent and a positive usage total — otherwise it is `0`, NOT the
spec's unconditional bonus. -/
theorem C7_reward_formula (rsqrt : ℚ → ℚ) (st : RLState) (a : Fin 8)
    (hprev : st.prevEvac = statusSum st) :
    ((rlStep rsqrt st a).2.1 =
      ((statusSum (rlStep rsqrt st a).1 : ℚ) - (statusSum st : ℚ)) * 10
        - hazPenaltyOf (rlStep rsqrt st a).1 * 2
        + fairnessBonusOf rsqrt (rlStep rsqrt st a).1) ∧
    ((rlStep rsqrt st a).1.exits ≠ [] →
      0 < statusSum (rlStep rsqrt st a).1 →
      0 < (exitUsage rsqrt (rlStep rsqrt st a).1).foldl (· + ·) 0 →
      fairnessBonusOf rsqrt (rlStep rsqrt st a).1
        = specFairnessBonus rsqrt (rlStep rsqrt st a).1) := by
  constructor
  · rw [← hprev]
    rfl
  · intro h1 h2 h3
    simp only [fairnessBonusOf, specFairnessBonus, specGini]
    rw [if_pos ⟨h1, h2⟩, if_pos h3, if_neg (ne_of_gt h3)]

/-- Witness for C7 at `c7State` under action 2. -/
theorem C7_reward_formula_witness :
    ((rlStep sqrtQ c7State 2).2.1 =
      ((statusSum (rlStep sqrtQ c7State 2).1 : ℚ) - (statusSum c7State : ℚ)) * 10
        - hazPenaltyOf (rlStep sqrtQ c7State 2).1 * 2
        + fairnessBonusOf sqrtQ (rlStep sqrtQ c7State 2).1) ∧
    ((rlStep sqrtQ c7State 2).1.exits ≠ [] →
      0 < statusSum (rlStep sqrtQ c7State 2).1 →
      0 < (exitUsage sqrtQ (rlStep sqrtQ c7State 2).1).foldl (· + ·) 0 →
      fairnessBonusOf sqrtQ (rlStep sqrtQ c7State 2).1
        = specFairnessBonus sqrtQ (rlStep sqrtQ c7State 2).1) :=
  C7_reward_formula sqrtQ c7State 2 rfl

/-- Counterexample to C7 as stated: from `c7State` (one active agent, one
exit, nobody evacuated yet) action 2 moves the agent one cell and the code
returns reward `0`, while the spec's formula — whose fairness bonus is not
gated on a prior evacuation — predicts `1/2`. -/
theorem C7_fairness_bonus_gated :
    (rlStep sqrtQ c7State 2).2.1 = 0 ∧
    specReward sqrtQ c7State (rlStep sqrtQ c7State 2).1 = 1/2 := by
  constructor
  · rw [c7_step_eq]
  · rw [c7_step_eq]
    norm_num [specReward, specFairnessBonus, specGini, exitUsage, statusSum,
      c7Post, c7State, c7_haz, List.zip_cons_cons, List.zip_nil_right,
      List.foldl_cons, List.foldl_nil, List.count_cons, List.count_nil]

/-! ### Microscopic force terms: float-op lemmas and finiteness (C8) -/

theorem mQ_add (a b : ℚ) : mQ a + mQ b = mQ (a + b) := rfl

theorem mQ_sub (a b : ℚ) : mQ a - mQ b = mQ (a - b) := rfl

theorem mQ_mul (a b : ℚ) : mQ a * mQ b = mQ (a * b) := rfl

theorem mQ_neg (a : ℚ) : -(mQ a) = mQ (-a) := rfl

theorem mQ_div (a b : ℚ) (hb : b ≠ 0) : mQ a / mQ b = mQ (a / b) := by
  show mDiv (some a) (some b) = some (a / b)
  simp [mDiv, hb]

theorem mQ_div_zero (a : ℚ) : mQ a / mQ 0 = mNaN := by
  show mDiv (some a) (some 0) = none
  simp [mDiv]

theorem mNorm_mQ (nrm : ℚ → ℚ → ℚ) (a b : ℚ) :
    mNorm nrm (mQ a) (mQ b) = mQ (nrm a b) := rfl

theorem mExp_mQ (rexp : ℚ → ℚ) (a : ℚ) : mExp rexp (mQ a) = mQ (rexp a) := rfl

theorem mLt_mQ (a b : ℚ) : mLt (mQ a) (mQ b) = decide (a < b) := rfl

theorem mClamp_mQ (a lo hi : ℚ) : mClamp (mQ a) lo hi = mQ (clampQ a lo hi) := rfl

theorem mAdd_none_left (b : MF) : mNaN + b = mNaN := by
  show mAdd none b = none
  cases b <;> rfl

theorem mAdd_none_right (a : MF) : a + mNaN = mNaN := by
  show mAdd a none = none
  cases a <;> rfl

theorem mSub_none_right (a : MF) : a - mNaN = mNaN := by
  show mSub a none = none
  cases a <;> rfl

theorem mMul_none_left (b : MF) : mNaN * b = mNaN := by
  show mMul none b = none
  cases b <;> rfl

theorem mMul_none_right (a : MF) : a * mNaN = mNaN := by
  show mMul a none = none
  cases a <;> rfl

theorem mNorm_none_left (nrm : ℚ → ℚ → ℚ) (b : MF) :
    mNorm nrm mNaN b = mNaN := by
  cases b <;> rfl

theorem mLt_none_left (b : MF) : mLt mNaN b = false := by
  cases b <;> rfl

theorem FiniteV_mk (a b : ℚ) : FiniteV (mQ a, mQ b) := ⟨⟨a, rfl⟩, ⟨b, rfl⟩⟩

theorem desiredForce_finite (nrm : ℚ → ℚ → ℚ) (pos vel goal : Vec2)
    (hp : FiniteV pos) (hv : FiniteV vel) (hg : FiniteV goal) :
    FiniteV (desiredForce nrm pos vel goal) := by
  obtain ⟨⟨px, hpx⟩, ⟨py, hpy⟩⟩ := hp
  obtain ⟨⟨vx, hvx⟩, ⟨vy, hvy⟩⟩ := hv
  obtain ⟨⟨gx, hgx⟩, ⟨gy, hgy⟩⟩ := hg
  have hpx' : pos.1 = mQ px := hpx
  have hpy' : pos.2 = mQ py := hpy
  have hvx' : vel.1 = mQ vx := hvx
  have hvy' : vel.2 = mQ vy := hvy
  have hgx' : goal.1 = mQ gx := hgx
  have hgy' : goal.2 = mQ gy := hgy
  simp only [desiredForce]
  rw [hpx', hpy', hvx', hvy', hgx', hgy', mQ_sub, mQ_sub, mNorm_mQ, mLt_mQ]
  by_cases hlt : (1/100 : ℚ) < nrm (gx - px) (gy - py)
  · rw [if_pos (decide_eq_true hlt), if_pos (decide_eq_true hlt),
      mQ_div _ _ (ne_of_gt (lt_trans (by norm_num) hlt)),
      mQ_div _ _ (ne_of_gt (lt_trans (by norm_num) hlt))]
    simp only [mQ_mul, mQ_sub]
    exact FiniteV_mk _ _
  · rw [if_neg (by simpa using hlt), if_neg (by simpa using hlt)]
    simp only [mQ_mul, mQ_sub]
    exact FiniteV_mk _ _

theorem mNorm_none_l (nrm : ℚ → ℚ → ℚ) (b : MF) :
    mNorm nrm none b = none := by
  cases b <;> rfl

theorem mNorm_none_r (nrm : ℚ → ℚ → ℚ) (a : MF) :
    mNorm nrm a none = none := by
  cases a <;> rfl

theorem mLt_none_l (b : MF) : mLt none b = false := by
  cases b <;> rfl

/-- One summand of `_calculate_agent_repulsion` is finite whenever the
accumulator is: the `(0, 2)` distance guard is `false` on NaN and forces a
positive (hence non-zero) divisor otherwise. -/
theorem agentStep_finite (nrm : ℚ → ℚ → ℚ) (rexp : ℚ → ℚ)
    (acc : Vec2) (hacc : FiniteV acc) (rx ry : MF) :
    FiniteV (if mLt (mQ 0) (mNorm nrm rx ry) ∧ mLt (mNorm nrm rx ry) (mQ 2) then
      (acc.1 + rx / mNorm nrm rx ry
        * (mExp rexp (-(mNorm nrm rx ry / mQ (4/5))) * mQ 2),
       acc.2 + ry / mNorm nrm rx ry
        * (mExp rexp (-(mNorm nrm rx ry / mQ (4/5))) * mQ 2))
      else acc) := by
  obtain ⟨⟨ax, hax⟩, ⟨ay, hay⟩⟩ := hacc
  have hax' : acc.1 = mQ ax := hax
  have hay' : acc.2 = mQ ay := hay
  cases rx with
  | none =>
    rw [mNorm_none_l, if_neg]
    · exact ⟨⟨ax, hax⟩, ⟨ay, hay⟩⟩
    · intro hc
      simpa [mLt_none_l] using hc.2
  | some rxv =>
    cases ry with
    | none =>
      rw [mNorm_none_r, if_neg]
      · exact ⟨⟨ax, hax⟩, ⟨ay, hay⟩⟩
      · intro hc
        simpa [mLt_none_l] using hc.2
    | some ryv =>
      rw [show (some rxv : MF) = mQ rxv from rfl,
        show (some ryv : MF) = mQ ryv from rfl, mNorm_mQ, mLt_mQ, mLt_mQ]
      by_cases hg : (0 : ℚ) < nrm rxv ryv ∧ nrm rxv ryv < 2
      · rw [if_pos ⟨decide_eq_true hg.1, decide_eq_true hg.2⟩]
        have hne : nrm rxv ryv ≠ 0 := ne_of_gt hg.1
        have hdivn : ∀ a : ℚ, mQ a / mQ (nrm rxv ryv) = mQ (a / nrm rxv ryv) :=
          fun a => mQ_div a _ hne
        have hdiv45 : ∀ a : ℚ, mQ a / mQ (4/5) = mQ (a / (4/5)) :=
          fun a => mQ_div a _ (by norm_num)
        simp only [hdivn, hdiv45, mQ_neg, mExp_mQ, mQ_mul, hax', hay', mQ_add]
        exact FiniteV_mk _ _
      · rw [if_neg (by simp only [decide_eq_true_eq]; exact hg)]
        exact ⟨⟨ax, hax⟩, ⟨ay, hay⟩⟩

/-- One summand of `_calculate_wall_repulsion` is finite whenever the
accumulator is: the `< 1.0` distance guard is `false` on NaN, and the
`+ 1e-6` offset makes the divisor positive otherwise. -/
theorem wallStep_finite (nrm : ℚ → ℚ → ℚ) (rexp : ℚ → ℚ)
    (hnn : ∀ x y, 0 ≤ nrm x y) (acc : Vec2) (hacc : FiniteV acc)
    (dx dy : MF) :
    FiniteV (if mLt (mNorm nrm dx dy) (mQ 1) then
      (acc.1 + dx / (mNorm nrm dx dy + mQ (1/1000000))
        * (mExp rexp (-(mNorm nrm dx dy / mQ (1/5))) * mQ 3),
       acc.2 + dy / (mNorm nrm dx dy + mQ (1/1000000))
        * (mExp rexp (-(mNorm nrm dx dy / mQ (1/5))) * mQ 3))
      else acc) := by
  obtain ⟨⟨ax, hax⟩, ⟨ay, hay⟩⟩ := hacc
  have hax' : acc.1 = mQ ax := hax
  have hay' : acc.2 = mQ ay := hay
  cases dx with
  | none =>
    rw [mNorm_none_l, if_neg]
    · exact ⟨⟨ax, hax⟩, ⟨ay, hay⟩⟩
    · intro hc
      simp [mLt_none_l] at hc
  | some dxv =>
    cases dy with
    | none =>
      rw [mNorm_none_r, if_neg]
      · exact ⟨⟨ax, hax⟩, ⟨ay, hay⟩⟩
      · intro hc
        simp [mLt_none_l] at hc
    | some dyv =>
      rw [show (some dxv : MF) = mQ dxv from rfl,
        show (some dyv : MF) = mQ dyv from rfl, mNorm_mQ, mLt_mQ]
      by_cases hlt : nrm dxv dyv < 1
      · rw [if_pos (decide_eq_true hlt)]
        have hden : nrm dxv dyv + 1/1000000 ≠ 0 :=
          ne_of_gt (add_pos_of_nonneg_of_pos (hnn dxv dyv) (by norm_num))
        have hdivd : ∀ a : ℚ, mQ a / mQ (nrm dxv dyv + 1/1000000)
            = mQ (a / (nrm dxv dyv + 1/1000000)) := fun a => mQ_div a _ hden
        have hdiv5 : ∀ a : ℚ, mQ a / mQ (1/5) = mQ (a / (1/5)) :=
          fun a => mQ_div a _ (by norm_num)
        simp only [mQ_add, hdivd, hdiv5, mQ_neg, mExp_mQ, mQ_mul, hax', hay']
        exact FiniteV_mk _ _
      · rw [if_neg (by simp only [decide_eq_true_eq]; exact hlt)]
        exact ⟨⟨ax, hax⟩, ⟨ay, hay⟩⟩

theorem agentFold_finite (nrm : ℚ → ℚ → ℚ) (rexp : ℚ → ℚ) (p : Vec2) :
    ∀ (l : List Vec2) (acc : Vec2), FiniteV acc →
      FiniteV (l.foldl (fun acc q =>
        let rx := q.1 - p.1
        let ry := q.2 - p.2
        let d := mNorm nrm rx ry
        if mLt (mQ 0) d ∧ mLt d (mQ 2) then
          let mag := mExp rexp (-(d / mQ (4/5))) * mQ 2
          (acc.1 + rx / d * mag, acc.2 + ry / d * mag)
        else acc) acc) := by
  intro l
  induction l with
  | nil => exact fun acc hacc => hacc
  | cons q t ih =>
    intro acc hacc
    rw [List.foldl_cons]
    refine ih _ ?_
    exact agentStep_finite nrm rexp acc hacc (q.1 - p.1) (q.2 - p.2)

theorem wallFold_finite (nrm : ℚ → ℚ → ℚ) (rexp : ℚ → ℚ) (p : Vec2)
    (hnn : ∀ x y, 0 ≤ nrm x y) :
    ∀ (walls : List ((ℚ × ℚ) × (ℚ × ℚ))) (acc : Vec2), FiniteV acc →
      FiniteV (walls.foldl (fun acc w =>
        let wvx := mQ (w.2.1 - w.1.1)
        let wvy := mQ (w.2.2 - w.1.2)
        let wlen := mNorm nrm wvx wvy
        let ux := wvx / wlen
        let uy := wvy / wlen
        let asx := p.1 - mQ w.1.1
        let asy := p.2 - mQ w.1.2
        let projC :=
          match (asx * ux + asy * uy), wlen with
          | some pr, some l => mClamp (some pr) 0 l
          | _, _ => none
        let cpx := mQ w.1.1 + projC * ux
        let cpy := mQ w.1.2 + projC * uy
        let dx := p.1 - cpx
        let dy := p.2 - cpy
        let dist := mNorm nrm dx dy
        if mLt dist (mQ 1) then
          let mag := mExp rexp (-(dist / mQ (1/5))) * mQ 3
          (acc.1 + dx / (dist + mQ (1/1000000)) * mag,
           acc.2 + dy / (dist + mQ (1/1000000)) * mag)
        else acc) acc) := by
  intro walls
  induction walls with
  | nil => exact fun acc hacc => hacc
  | cons w ws ih =>
    intro acc hacc
    rw [List.foldl_cons]
    refine ih _ ?_
    exact wallStep_finite nrm rexp hnn acc hacc _ _

/-- A zero-length wall contributes nothing: `wall_unit = 0/0` is NaN, the
NaN propagates to the distance, and `distance < 1.0` is false on NaN. -/
theorem wallRepulsion_degenerate (nrm : ℚ → ℚ → ℚ) (rexp : ℚ → ℚ)
    (positions : List Vec2) (w : (ℚ × ℚ) × (ℚ × ℚ))
    (hnrm0 : nrm 0 0 = 0) (hw : w.2 = w.1) :
    wallRepulsion nrm rexp positions [w] = positions.map fun _ => (mQ 0, mQ 0) := by
  unfold wallRepulsion
  refine List.map_congr_left ?_
  intro p _
  rw [List.foldl_cons, List.foldl_nil]
  dsimp only
  rw [hw]
  simp only [sub_self, mNorm_mQ, hnrm0, mQ_div_zero, mMul_none_right,
    mAdd_none_right, mSub_none_right, mNorm_none_left, mLt_none_left]
  rw [if_neg (by simp)]

/-- Claim C8 (amended): for any norm model that is pointwise non-negative
and zero on the zero vector — as the Euclidean norm is — the desired force
on finite positions, velocities and goals is finite (the `> 0.01` guard
yields a zero direction at the goal); every agent-repulsion force is finite
(the `(0, 2)` distance guard excludes zero distances); every wall-repulsion
force is finite (the `+ 1e-6` offset keeps the divisor positive, and the
`< 1.0` comparison is false on NaN); and a zero-length wall contributes
nothing — not via an explicit skip, but because its NaN distance fails the
`< 1.0` comparison.  Hazard avoidance, by contrast, is NOT NaN-free: see
`C8_hazard_nan_at_zero_distance`. -/
theorem C8_force_guards (nrm : ℚ → ℚ → ℚ) (rexp : ℚ → ℚ) (pf : ℚ)
    (positions : List Vec2) (walls : List ((ℚ × ℚ) × (ℚ × ℚ)))
    (pos vel goal : Vec2)
    (hnn : ∀ x y, 0 ≤ nrm x y) (hnrm0 : nrm 0 0 = 0)
    (hp : FiniteV pos) (hv : FiniteV vel) (hg : FiniteV goal) :
    FiniteV (desiredForce nrm pos vel goal) ∧
    (∀ f ∈ agentRepulsion nrm rexp pf positions, FiniteV f) ∧
    (∀ f ∈ wallRepulsion nrm rexp positions walls, FiniteV f) ∧
    (∀ w ∈ walls, w.2 = w.1 →
      wallRepulsion nrm rexp positions [w] = positions.map fun _ => (mQ 0, mQ 0)) := by
  refine ⟨desiredForce_finite nrm pos vel goal hp hv hg, ?_, ?_, ?_⟩
  · intro f hf
    unfold agentRepulsion at hf
    obtain ⟨p, hpmem, rfl⟩ := List.mem_map.mp hf
    obtain ⟨⟨sx, hsx⟩, ⟨sy, hsy⟩⟩ :=
      agentFold_finite nrm rexp p positions (mQ 0, mQ 0) (FiniteV_mk 0 0)
    refine ⟨⟨-sx * pf, ?_⟩, ⟨-sy * pf, ?_⟩⟩
    · exact (congrArg (fun z : MF => -z * mQ pf) hsx).trans rfl
    · exact (congrArg (fun z : MF => -z * mQ pf) hsy).trans rfl
  · intro f hf
    unfold wallRepulsion at hf
    obtain ⟨p, hpmem, rfl⟩ := List.mem_map.mp hf
    exact wallFold_finite nrm rexp p hnn walls (mQ 0, mQ 0) (FiniteV_mk 0 0)
  · intro w _ hw
    exact wallRepulsion_degenerate nrm rexp positions w hnrm0 hw

/-- Witness for C8: the concrete norm model `nrm0`, one agent at the
origin, one zero-length wall. -/
theorem C8_force_guards_witness :
    FiniteV (desiredForce nrm0 (mQ 0, mQ 0) (mQ 0, mQ 0) (mQ 3, mQ 4)) ∧
    (∀ f ∈ agentRepulsion nrm0 rexpQ (6/5) [((mQ 0, mQ 0) : Vec2)], FiniteV f) ∧
    (∀ f ∈ wallRepulsion nrm0 rexpQ [((mQ 0, mQ 0) : Vec2)]
        [(((1:ℚ), (1:ℚ)), ((1:ℚ), (1:ℚ)))], FiniteV f) ∧
    (∀ w ∈ [(((1:ℚ), (1:ℚ)), ((1:ℚ), (1:ℚ)))], w.2 = w.1 →
      wallRepulsion nrm0 rexpQ [((mQ 0, mQ 0) : Vec2)] [w]
        = [((mQ 0, mQ 0) : Vec2)].map fun _ => (mQ 0, mQ 0)) :=
  C8_force_guards nrm0 rexpQ (6/5) [(mQ 0, mQ 0)] [((1, 1), (1, 1))]
    (mQ 0, mQ 0) (mQ 0, mQ 0) (mQ 3, mQ 4)
    (fun x y => add_nonneg (abs_nonneg x) (abs_nonneg y)) (by norm_num [nrm0])
    (FiniteV_mk 0 0) (FiniteV_mk 0 0) (FiniteV_mk 3 4)

/-- Counterexample to C8 as stated: an agent standing exactly on a hazard
is inside the `radius * 2` zone, and the direction `rel/d = 0/0` is NaN, so
the hazard-avoidance force on that agent is NaN in both components — the
force terms are NOT all finite for all positions. -/
theorem C8_hazard_nan_at_zero_distance :
    hazardAvoidance nrm0 rexpQ (6/5) [(mQ 5, mQ 5)] [hz8] = [(mNaN, mNaN)] := by
  unfold hazardAvoidance hz8
  simp only [List.map_cons, List.map_nil, List.foldl_cons, List.foldl_nil]
  have h1 : mQ (5:ℚ) - mQ 5 = mQ 0 := by rw [mQ_sub]; norm_num
  have h2 : mNorm nrm0 (mQ 0) (mQ 0) = mQ 0 := by rw [mNorm_mQ]; norm_num [nrm0]
  have h3 : mLt (mQ 0) (mQ ((2:ℚ) * 2)) = true := by rw [mLt_mQ]; norm_num
  simp only [h1, h2, h3, mQ_div_zero, mMul_none_left, mAdd_none_right, if_true]

theorem c1_nowall (nrm : ℚ → ℚ → ℚ) (rexp : ℚ → ℚ) (p : Vec2) :
    wallRepulsion nrm rexp [p] [] = [((mQ 0, mQ 0) : Vec2)] := rfl

theorem c1_nohaz (nrm : ℚ → ℚ → ℚ) (rexp : ℚ → ℚ) (a b : ℚ) :
    hazardAvoidance nrm rexp (6/5) [((mQ a, mQ b) : Vec2)] [] = [((mQ 0, mQ 0) : Vec2)] := by
  unfold hazardAvoidance
  simp only [List.map_cons, List.map_nil, List.foldl_nil]
  norm_num [mQ_mul]

theorem c1_selfrep (nrm : ℚ → ℚ → ℚ) (rexp : ℚ → ℚ) (H0 : nrm 0 0 = 0) (a b : ℚ) :
    agentRepulsion nrm rexp (6/5) [((mQ a, mQ b) : Vec2)] = [((mQ 0, mQ 0) : Vec2)] := by
  unfold agentRepulsion
  simp only [List.map_cons, List.map_nil, List.foldl_cons, List.foldl_nil]
  norm_num [mQ_sub, sub_self, H0, mNorm_mQ, mLt_mQ, mQ_mul, mQ_neg]

theorem c1_fd1 (nrm : ℚ → ℚ → ℚ) (H0 : nrm 0 0 = 0) :
    desiredForce nrm (mQ 10, mQ 10) (mQ 0, mQ 0) (mQ 10, mQ 10) = (mQ 0, mQ 0) := by
  simp only [desiredForce]
  norm_num [mQ_sub, sub_self, H0, mNorm_mQ, mLt_mQ, mQ_mul]

theorem c1_step1 (nrm : ℚ → ℚ → ℚ) (rexp : ℚ → ℚ) (H0 : nrm 0 0 = 0) :
    microStep nrm rexp [] [((10:ℚ), (10:ℚ))] [] (6/5) [((mQ 10, mQ 10) : Vec2)]
      ([((mQ 10, mQ 10) : Vec2)], [((mQ 0, mQ 0) : Vec2)])
    = (([(mQ (-1000), mQ (-1000))], [(mQ 0, mQ 0)]),
       ([(mQ 10, mQ 10)], [(mQ 0, mQ 0)]), 1) := by
  unfold microStep
  simp only [List.zip_cons_cons, List.zip_nil_right, List.zipWith_cons_cons,
    List.zipWith_nil_right, List.zipWith_nil_left, List.zipWith_nil,
    List.map_cons, List.map_nil, List.foldl_cons, List.foldl_nil,
    c1_fd1 nrm H0, c1_selfrep nrm rexp H0, c1_nowall, c1_nohaz]
  norm_num [mQ_add, mQ_mul, mQ_sub, sub_self, H0, mNorm_mQ, mLt_mQ,
    List.count_cons, List.count_nil]

theorem c1_fd2 (nrm : ℚ → ℚ → ℚ) (hn : 1 ≤ nrm 1 1)
    (H3 : ∀ a x y, nrm (a * x) (a * y) = |a| * nrm x y) :
    desiredForce nrm (mQ (-1000), mQ (-1000)) (mQ 0, mQ 0) (mQ 10, mQ 10)
      = (mQ (14 / (5 * nrm 1 1)), mQ (14 / (5 * nrm 1 1))) := by
  have hnpos : (0:ℚ) < nrm 1 1 := lt_of_lt_of_le one_pos hn
  have hdiag : nrm 1010 1010 = 1010 * nrm 1 1 := by
    have h := H3 1010 1 1
    norm_num at h
    exact h
  have hDpos : (0:ℚ) < 1010 * nrm 1 1 := by positivity
  simp only [desiredForce]
  rw [mQ_sub]
  norm_num [mNorm_mQ, hdiag, mLt_mQ]
  rw [if_pos (show (1:ℚ)/100 < 1010 * nrm 1 1 by nlinarith)]
  rw [mQ_div _ _ (ne_of_gt hDpos)]
  simp only [mQ_mul, mQ_sub]
  refine Prod.ext ?_ ?_ <;>
    exact congrArg mQ (by field_simp; ring)

theorem c1_step2 (nrm : ℚ → ℚ → ℚ) (rexp : ℚ → ℚ)
    (hn : 1 ≤ nrm 1 1) (H0 : nrm 0 0 = 0)
    (H3 : ∀ a x y, nrm (a * x) (a * y) = |a| * nrm x y)
    (H1 : ∀ x y, |x| ≤ nrm x y) :
    (microStep nrm rexp [] [((10:ℚ), (10:ℚ))] [] (6/5)
      [((mQ 10, mQ 10) : Vec2)]
      ([((mQ (-1000), mQ (-1000)) : Vec2)], [((mQ 0, mQ 0) : Vec2)])).2.2 = 0 := by
  have hnpos : (0:ℚ) < nrm 1 1 := lt_of_lt_of_le one_pos hn
  have hne : nrm 1 1 ≠ 0 := ne_of_gt hnpos
  unfold microStep
  simp only [List.zip_cons_cons, List.zip_nil_right, List.zipWith_cons_cons,
    List.zipWith_nil_right, List.zipWith_nil_left, List.zipWith_nil,
    List.map_cons, List.map_nil, List.foldl_cons, List.foldl_nil,
    c1_fd2 nrm hn H3, c1_selfrep nrm rexp H0, c1_nowall, c1_nohaz]
  norm_num [mQ_add, mQ_mul]
  have hV0 : (0:ℚ) ≤ 14 / (5 * nrm 1 1) * (1 / 10) := by positivity
  have hVdiag : nrm (14 / (5 * nrm 1 1) * (1 / 10)) (14 / (5 * nrm 1 1) * (1 / 10))
      = 7 / 25 := by
    have h := H3 (14 / (5 * nrm 1 1) * (1 / 10)) 1 1
    rw [mul_one, abs_of_nonneg hV0] at h
    rw [h]
    field_simp
    ring
  rw [mNorm_mQ, hVdiag, mLt_mQ]
  norm_num [mQ_add, mQ_mul, mQ_sub, mNorm_mQ, mLt_mQ]
  have ht : 14 / (5 * nrm 1 1) * (1 / 10) * (1 / 10) ≤ 7 / 250 := by
    have h1 : 14 / (5 * nrm 1 1) * (1 / 10) * (1 / 10) = 7 / (250 * nrm 1 1) := by
      field_simp
      ring
    rw [h1, div_le_div_iff₀ (by positivity) (by norm_num)]
    nlinarith
  have habs : (1:ℚ) ≤ |(-1000 + 14 / (5 * nrm 1 1) * (1 / 10) * (1 / 10) - 10 : ℚ)| := by
    have hWpos : (0:ℚ) ≤ 14 / (5 * nrm 1 1) * (1 / 10) * (1 / 10) := by positivity
    rw [abs_of_nonpos (by linarith)]
    linarith
  have hnlt : ¬ (nrm (-1000 + 14 / (5 * nrm 1 1) * (1 / 10) * (1 / 10) - 10)
      (-1000 + 14 / (5 * nrm 1 1) * (1 / 10) * (1 / 10) - 10) < 1) :=
    not_lt.mpr (le_trans habs (H1 _ _))
  rw [decide_eq_false hnlt]
  rfl

/-- Claim C1 (code bug): `safe_agents` is NOT cumulative.  One agent that
starts exactly on the only exit: at step 0 it is within 1 m of the exit,
`safe_agents[0] = 1`, and it is teleported to the sentinel `(-1000, -1000)`;
at step 1 it is still simulated (the desired force pulls it back toward its
goal at a capped speed), its distance to the exit is over 1009 m, and the
per-step sweep records `safe_agents[1] = 0` — the series DECREASES, which is
impossible for the cumulative count the spec describes. -/
theorem C1_safe_agents_not_cumulative (nrm : ℚ → ℚ → ℚ) (rexp : ℚ → ℚ)
    (H1 : ∀ x y, |x| ≤ nrm x y)
    (H3 : ∀ a x y, nrm (a * x) (a * y) = |a| * nrm x y) :
    (microSim nrm rexp c1Layout [] (6/5) c1Init 2).2.2 = [1, 0] := by
  have H0 : nrm 0 0 = 0 := by
    have h := H3 0 0 0
    norm_num at h
    exact h
  have hn : 1 ≤ nrm 1 1 := by
    have h := H1 1 1
    norm_num at h
    exact h
  unfold microSim c1Layout c1Init
  simp only [List.map_cons, List.map_nil]
  rw [show closestGoal nrm [((10:ℚ), (10:ℚ))] ((10:ℚ), (10:ℚ))
    = ((mQ 10, mQ 10) : Vec2) from rfl]
  rw [show (2:ℕ) = 0 + 1 + 1 from rfl]
  simp only [microLoop]
  rw [c1_step1 nrm rexp H0]
  dsimp only
  rw [c1_step2 nrm rexp hn H0 H3 H1]


/-- Witness for C1 with the concrete norm model `nrm0`. -/
theorem C1_safe_agents_not_cumulative_witness :
    (microSim nrm0 rexpQ c1Layout [] (6/5) c1Init 2).2.2 = [1, 0] :=
  C1_safe_agents_not_cumulative nrm0 rexpQ
    (fun x y => le_add_of_nonneg_right (abs_nonneg y))
    (fun a x y => by simp [nrm0, abs_mul, mul_add])

end Evac
